import Mathlib

/-!
# EventDriven: the event channel, its subscription handle and the manager

A verification development over `src/event_system.h`.

Modelling conventions.

* `std::function<void(Args...)>` values are elements of a type `F` of callable
  objects; what a call does is given by a function `call : F → Args → ...`.
* `int` is `Int` with the 32-bit range kept by hand: the id counter starts at `0`
  and the increment `nextId_++` wraps from `INT_MAX` to `INT_MIN` (`wrapInt`), as
  the compiled program does.
* `Event*` is `Option Nat`: `none` is `nullptr`, `some a` the channel at address `a`.
* The console tracing of `subscribe` and `unsubscribe` changes no program state
  and is not modelled. The lines the callbacks of `domain.cpp` write are their
  actions and are modelled (`Line`).
* `double` is `Double`: a rational number for a finite value, the two infinities and
  NaN. The program only compares doubles, with the literals `25.0` and `18.0`.
-/

namespace EventDriven

/-! ## Event: the channel -/

/-- The record `Event::CallbackEntry`. -/
structure CallbackEntry (F : Type) where
  id : Int
  callback : F
  name : String
deriving DecidableEq, Repr

/-- The data members of `Event`: `nextId_` and `callbacks_`. -/
structure Event (F : Type) where
  nextId_ : Int
  callbacks_ : List (CallbackEntry F)
deriving DecidableEq, Repr

/-- The data members of `Event::Subscription`: `event_` (`none` is `nullptr`) and `id_`. -/
structure Subscription where
  event_ : Option Nat
  id_ : Int
deriving DecidableEq, Repr

/-- The largest `int`. -/
def INT_MAX : Int := 2147483647

/-- The smallest `int`. -/
def INT_MIN : Int := -2147483648

/-- The value an `int` computation stores: the result wrapped into the range of `int`
(two's complement, 32 bits). -/
def wrapInt (x : Int) : Int := (x + 2147483648) % 4294967296 - 2147483648

/-- A freshly constructed channel: `nextId_ = 0`, no callbacks. -/
def Event.fresh (F : Type) : Event F := ⟨0, []⟩

/-- The private constructor `Subscription(Event* event, int id)`. -/
def Subscription.ctor (event : Nat) (id : Int) : Subscription := ⟨some event, id⟩

/-- A handle is Active when its channel pointer is not null. -/
def Subscription.Active (s : Subscription) : Bool := s.event_.isSome

/-- The method `Event::subscribe`, for the channel at address `self`: `id = nextId_++`
(the increment of an `int`, which wraps), the entry is appended, the handle
`Subscription(this, id)` is returned. -/
def Event.subscribe {F : Type} (self : Nat) (ev : Event F) (callback : F) (name : String) :
    Event F × Subscription :=
  let id := ev.nextId_
  ({ nextId_ := wrapInt (ev.nextId_ + 1),
     callbacks_ := ev.callbacks_ ++ [{ id := id, callback := callback, name := name }] },
   Subscription.ctor self id)

/-- The method `Event::unsubscribe`: `find_if` for the first entry with the id, then `erase`
when one was found. -/
def Event.unsubscribe {F : Type} (ev : Event F) (id : Int) : Event F :=
  match ev.callbacks_.findIdx? (fun entry => entry.id == id) with
  | some it => { ev with callbacks_ := ev.callbacks_.eraseIdx it }
  | none => ev

/-! ## Calls made by a callback while it runs

A callback is arbitrary user code. What matters to the channel that is dispatching is
which of its own list operations the callback performs before it returns. -/

/-- One call of a list operation of a channel: `subscribe`, or `unsubscribe` (made by the
destructor of a handle with the given id). Used for the history of a channel and for what
a callback does to the channel that is invoking it. -/
inductive Op (F : Type) where
  | subscribe (callback : F) (name : String)
  | unsubscribe (id : Int)
deriving DecidableEq, Repr

/-- The effect of one operation on the channel. -/
def Op.apply {F : Type} (self : Nat) (r : Op F) (ev : Event F) : Event F :=
  match r with
  | .subscribe callback name => (ev.subscribe self callback name).1
  | .unsubscribe id => ev.unsubscribe id

/-- Whether the operation changes the vector `callbacks_`: `emplace_back` always does,
`erase` runs only when `find_if` found an entry. Either one invalidates the iterators of
a loop that is running over the vector. -/
def Op.modifies {F : Type} (r : Op F) (ev : Event F) : Bool :=
  match r with
  | .subscribe _ _ => true
  | .unsubscribe id => ev.callbacks_.any (fun entry => entry.id == id)

/-- Runs the operations of one callback in order; the flag tells whether any of them
changed the vector. -/
def runReentrant {F : Type} (self : Nat) : List (Op F) → Event F → Event F × Bool
  | [], ev => (ev, false)
  | r :: rs, ev =>
    let m := r.modifies ev
    let (ev', m') := runReentrant self rs (r.apply self ev)
    (ev', m || m')

/-- One invocation `entry.callback(args...)`. -/
abbrev Invocation (F Args : Type) := CallbackEntry F × Args

/-- The range-based for loop of `Event::trigger`: `n` iterations remain before the
iterator reaches the `end()` taken when the loop began, `i` is the position of the
iterator. The entry is read from the live vector; no copy of the vector is made.
`std::vector::emplace_back` invalidates the past-the-end iterator (every iterator when it
reallocates) and `std::vector::erase` invalidates the iterators at and after the erased
position, the past-the-end iterator included. The loop keeps the past-the-end iterator, so
once a callback has changed the vector the loop continues on invalid iterators and the
behaviour of the dispatch is undefined: `none`. -/
def triggerLoop {F Args : Type} (self : Nat) (call : F → Args → List (Op F)) (args : Args) :
    Nat → Nat → Event F → List (Invocation F Args) → Option (Event F × List (Invocation F Args))
  | 0, _, ev, trace => some (ev, trace)
  | n + 1, i, ev, trace =>
    match ev.callbacks_.get? i with
    | none => none
    | some entry =>
      let (ev', modified) := runReentrant self (call entry.callback args) ev
      if modified then none
      else triggerLoop self call args n (i + 1) ev' (trace ++ [(entry, args)])

/-- The method `Event::trigger`: the final channel state and the invocations made, in order;
`none` when a callback invalidated the iteration. -/
def Event.trigger {F Args : Type} (self : Nat) (call : F → Args → List (Op F))
    (ev : Event F) (args : Args) : Option (Event F × List (Invocation F Args)) :=
  triggerLoop self call args ev.callbacks_.length 0 ev []

/-- Successive calls of `subscribe` on one channel, one per (callback, label) pair. -/
def subscribeAll {F : Type} (self : Nat) (ev : Event F) (cs : List (F × String)) : Event F :=
  cs.foldl (fun ev c => (ev.subscribe self c.1 c.2).1) ev

/-! ## Handles and the channels they point to -/

/-- The channel objects of the program, by address. Channels of different payload types
hold callables of different types. -/
abbrev Heap (F : Nat → Type) := (a : Nat) → Event (F a)

/-- The move constructor `Subscription(Subscription&& other)`: the handle constructed
(`event_(other.event_), id_(other.id_)`) and `other` afterwards (`other.event_ = nullptr`). -/
def Subscription.move (other : Subscription) : Subscription × Subscription :=
  (⟨other.event_, other.id_⟩, ⟨none, other.id_⟩)

/-- The destructor `~Subscription`: `if(event_) event_->unsubscribe(id_)`. -/
def Subscription.destroy {F : Nat → Type} (s : Subscription) (h : Heap F) : Heap F :=
  match s.event_ with
  | some a => Function.update h a ((h a).unsubscribe s.id_)
  | none => h

/-- A history of calls on one channel: the final state. -/
def runOps {F : Type} (self : Nat) : List (Op F) → Event F → Event F
  | [], ev => ev
  | op :: ops, ev => runOps self ops (op.apply self ev)

/-- A history of calls on one channel: the ids of the handles returned by its calls of
`subscribe`, in call order. -/
def issuedIds {F : Type} (self : Nat) : List (Op F) → Event F → List Int
  | [], _ => []
  | .subscribe callback name :: ops, ev =>
    (ev.subscribe self callback name).2.id_
      :: issuedIds self ops (ev.subscribe self callback name).1
  | .unsubscribe id :: ops, ev => issuedIds self ops (ev.unsubscribe id)

/-- The number of `subscribe` calls of a history. -/
def subscribeCount {F : Type} : List (Op F) → Nat
  | [] => 0
  | .subscribe _ _ :: ops => subscribeCount ops + 1
  | .unsubscribe _ :: ops => subscribeCount ops

/-- A history of `k` rounds on one channel: subscribe, then drop the handle just
returned. Round `i` (from 0) is issued the id `i` while the counter has not wrapped. -/
def churn {F : Type} (callback : F) (name : String) : Nat → List (Op F)
  | 0 => []
  | k + 1 => churn callback name k ++ [.subscribe callback name, .unsubscribe k]

/-- The ids of the registered entries increase strictly along the list and are all
below the counter. -/
def Event.WF {F : Type} (ev : Event F) : Prop :=
  (ev.callbacks_.map (fun e => e.id)).Pairwise (fun x y => x < y) ∧
  ∀ e ∈ ev.callbacks_, e.id < ev.nextId_

/-! ## Programs over handles -/

/-- The move assignment `Subscription::operator=(Subscription&& other)` for two distinct
objects (`this != &other`): `event_ = other.event_; id_ = other.id_; other.event_ = nullptr`.
The assigned-to handle and `other` afterwards. The handle assigned to is not asked whether
it is Active, and its channel is not called. -/
def Subscription.moveAssign (_self other : Subscription) : Subscription × Subscription :=
  (⟨other.event_, other.id_⟩, ⟨none, other.id_⟩)

/-- The channels and the live `Subscription` objects of a program; an object is named by
its position in `handles`. -/
structure World (F : Nat → Type) where
  events : Heap F
  handles : List Subscription

/-- The start of a program: every channel fresh, no handle alive. -/
def World.init (F : Nat → Type) : World F := ⟨fun a => Event.fresh (F a), []⟩

/-- The operations that create, move or end a handle. -/
inductive Step (F : Nat → Type) where
  | subscribe (event : Nat) (callback : F event) (name : String)
  | moveConstruct (other : Nat)
  | moveAssign (dst src : Nat)
  | destroy (handle : Nat)

/-- One operation. `subscribe` makes the returned handle a new live object;
`moveConstruct` makes a new object from an existing one; `moveAssign dst src` is
`handles[dst] = std::move(handles[src])`, which does nothing when both are the same object;
`destroy` runs the destructor of an object and ends its life. An operation that names an
object which is not alive does nothing. -/
def Step.run {F : Nat → Type} : Step F → World F → World F
  | .subscribe event callback name, w =>
    let r := (w.events event).subscribe event callback name
    ⟨Function.update w.events event r.1, w.handles ++ [r.2]⟩
  | .moveConstruct other, w =>
    match w.handles.get? other with
    | none => w
    | some s => ⟨w.events, w.handles.set other s.move.2 ++ [s.move.1]⟩
  | .moveAssign dst src, w =>
    if dst = src then w
    else
      match w.handles.get? dst, w.handles.get? src with
      | some d, some s =>
        ⟨w.events, (w.handles.set dst (d.moveAssign s).1).set src (d.moveAssign s).2⟩
      | _, _ => w
  | .destroy handle, w =>
    match w.handles.get? handle with
    | none => w
    | some s => ⟨s.destroy w.events, w.handles.eraseIdx handle⟩

/-- A program: its operations in order. -/
def runSteps {F : Nat → Type} (steps : List (Step F)) (w : World F) : World F :=
  steps.foldl (fun w s => s.run w) w

/-- The number of live Active handles that hold the pair (channel `a`, `id`). -/
def World.holders {F : Nat → Type} (w : World F) (a : Nat) (id : Int) : Nat :=
  w.handles.countP (fun s => s.event_ == some a && s.id_ == id)

/-- Whether the operation is a `subscribe` on the channel at `a`. -/
def Step.subscribesTo {F : Nat → Type} (a : Nat) : Step F → Bool
  | .subscribe event _ _ => event == a
  | _ => false

/-- The number of `subscribe` calls a program makes on the channel at `a`. -/
def subscribesOn {F : Nat → Type} (a : Nat) (steps : List (Step F)) : Nat :=
  steps.countP (Step.subscribesTo a)

/-- The program does not take the counter of any channel past `INT_MAX`. -/
def Bounded {F : Nat → Type} (w : World F) (steps : List (Step F)) : Prop :=
  ∀ a, INT_MIN ≤ (w.events a).nextId_ ∧
    (w.events a).nextId_ + (subscribesOn a steps : Int) ≤ INT_MAX

/-- The Active handles are pairwise different, and each holds an id below the counter of
its channel. -/
def World.Inv {F : Nat → Type} (w : World F) : Prop :=
  (w.handles.filter (fun s => s.Active)).Nodup ∧
  ∀ s ∈ w.handles, ∀ a, s.event_ = some a → s.id_ < (w.events a).nextId_

/-- Two subscriptions on the channel at address 0, then the second handle is move-assigned
to the first. -/
def orphaningProgram : List (Step (fun _ => Nat)) :=
  [.subscribe 0 7 "a", .subscribe 0 8 "b", .moveAssign 0 1]

/-! ## Behaviour up to labels -/

/-- The part of a channel state that does not mention labels: the counter and the sequence
of (id, callback) pairs. -/
def Event.unlabelled {F : Type} (ev : Event F) : Int × List (Int × F) :=
  (ev.nextId_, ev.callbacks_.map (fun e => (e.id, e.callback)))

/-- The invocations of a trace without the labels of their entries. -/
def unlabelledTrace {F Args : Type} (trace : List (Invocation F Args)) : List (Int × F × Args) :=
  trace.map (fun inv => (inv.1.id, inv.1.callback, inv.2))

/-- One later use of a channel: a call of `subscribe` or `unsubscribe`, or a `trigger`. -/
inductive Action (F Args : Type) where
  | call (op : Op F)
  | trigger (args : Args)

/-- Runs the actions in order and collects the invocations of the triggers; `none` when a
trigger was invalidated by one of its callbacks. -/
def runActions {F Args : Type} (self : Nat) (call : F → Args → List (Op F)) :
    List (Action F Args) → Event F → List (Invocation F Args) →
      Option (Event F × List (Invocation F Args))
  | [], ev, trace => some (ev, trace)
  | .call op :: rest, ev, trace => runActions self call rest (op.apply self ev) trace
  | .trigger args :: rest, ev, trace =>
    match ev.trigger self call args with
    | none => none
    | some (ev', invoked) => runActions self call rest ev' (trace ++ invoked)

/-- The outcome of a run without labels. -/
def unlabelledOutcome {F Args : Type} (res : Option (Event F × List (Invocation F Args))) :
    Option ((Int × List (Int × F)) × List (Int × F × Args)) :=
  res.map (fun r => (r.1.unlabelled, unlabelledTrace r.2))

/-! ## EventsManager -/

/-- The struct `EventsManager::SubscriptionWrapper<EventType>` as the manager holds it,
behind `ISubscription`: the payload type is erased, the wrapped handle `sub` remains. -/
structure SubscriptionWrapper where
  sub : Subscription
deriving DecidableEq, Repr

/-- The constructor `SubscriptionWrapper(Subscription&& s) : sub(std::move(s))`: the
wrapper, and `s` afterwards. -/
def SubscriptionWrapper.ctor (s : Subscription) : SubscriptionWrapper × Subscription :=
  (⟨s.move.1⟩, s.move.2)

/-- The data member of `EventsManager`: `subscriptions_`. -/
structure EventsManager where
  subscriptions_ : List SubscriptionWrapper
deriving DecidableEq, Repr

/-- The method `EventsManager::subscribe`, for the channel at address `event`: the local
`sub` receives the handle of `event.subscribe`, is moved into a new wrapper that is
appended to `subscriptions_`, and is destroyed when the method returns. -/
def EventsManager.subscribe {F : Nat → Type} (em : EventsManager) (h : Heap F) (event : Nat)
    (cb : F event) (info : String) : EventsManager × Heap F :=
  let r := (h event).subscribe event cb info
  let h1 := Function.update h event r.1
  let w := SubscriptionWrapper.ctor r.2
  (⟨em.subscriptions_ ++ [w.1]⟩, w.2.destroy h1)

/-- Destroys the wrappers in the given order; each destroys the handle it wraps. -/
def destroyAll {F : Nat → Type} (order : List SubscriptionWrapper) (h : Heap F) : Heap F :=
  order.foldl (fun h w => w.sub.destroy h) h

/-- The destructor of `EventsManager`: the vector `subscriptions_` destroys its elements,
here first to last (the order is the library's choice; see `destroyAll`). -/
def EventsManager.destroy {F : Nat → Type} (em : EventsManager) (h : Heap F) : Heap F :=
  destroyAll em.subscriptions_ h

/-- The arguments of one call of `EventsManager::subscribe`. -/
structure Request (F : Nat → Type) where
  event : Nat
  cb : F event
  info : String

/-- Successive calls of `EventsManager::subscribe` on one manager. -/
def subscribeMany {F : Nat → Type} (reqs : List (Request F)) (st : EventsManager × Heap F) :
    EventsManager × Heap F :=
  reqs.foldl (fun st r => st.1.subscribe st.2 r.event r.cb r.info) st

/-- For every id, the channel at `a` has as many entries with the id as `ws` has wrappers
that hold the channel and the id. -/
def Balanced {F : Nat → Type} (ws : List SubscriptionWrapper) (h : Heap F) (a : Nat) : Prop :=
  ∀ id : Int, (h a).callbacks_.countP (fun e => e.id == id)
    = ws.countP (fun w => w.sub.event_ == some a && w.sub.id_ == id)

/-- The callables of the two channels of `domain.cpp`: the lambda of `ClimateController`
on `temperatureEvent`, the lambda of `SecuritySystem` on `doorStatusEvent`. -/
inductive ClimateLambda where
  | adjust
deriving DecidableEq, Repr

/-- The lambda `SecuritySystem` subscribes to `doorStatusEvent`. -/
inductive SecurityLambda where
  | alert
deriving DecidableEq, Repr

/-- The callable type of each channel of `domain.cpp`: `temperatureEvent` at address 0,
`doorStatusEvent` at address 1. -/
def DomainCallable : Nat → Type
  | 0 => ClimateLambda
  | _ => SecurityLambda

/-- The two global channels of `domain.cpp` before `main` runs. -/
def domainHeap : Heap DomainCallable := fun a => Event.fresh (DomainCallable a)

/-- The two calls of `em.subscribe` made by the constructors in `main`. -/
def domainRequests : List (Request DomainCallable) :=
  [⟨0, ClimateLambda.adjust, "temperatureEvent"⟩, ⟨1, SecurityLambda.alert, "doorStatusEvent"⟩]

/-! ## The domain of `domain.cpp` -/

/-- A value of type `double`. A finite value is the rational number it stands for. The
program compares doubles and does no arithmetic on them. -/
inductive Double where
  | finite (q : ℚ)
  | posInf
  | negInf
  | nan
deriving DecidableEq

/-- The comparison `x < y` of two doubles (`y > x` is the same comparison): the order of
the numbers, with the infinities at the ends, and false as soon as one side is a NaN. -/
def Double.lt : Double → Double → Bool
  | .finite a, .finite b => decide (a < b)
  | .finite _, .posInf => true
  | .negInf, .finite _ => true
  | .negInf, .posInf => true
  | _, _ => false

/-- The literal `25.0`. -/
def Double.lit25 : Double := .finite 25

/-- The literal `18.0`. -/
def Double.lit18 : Double := .finite 18

/-- The literal `22.5`, which is a double exactly. -/
def Double.lit22_5 : Double := .finite (45 / 2)

/-- The literal `27.3`: the nearest double, `7684266864200909 / 2^48`. -/
def Double.lit27_3 : Double := .finite (7684266864200909 / 281474976710656)

/-- The struct `TemperatureEvent`. -/
structure TemperatureEvent where
  value : Double
deriving DecidableEq

/-- The struct `DoorStatusEvent`. -/
structure DoorStatusEvent where
  isOpen : Bool
  sensorId : Int
deriving DecidableEq

/-- What the callbacks of `domain.cpp` write: the line of the climate lambda with the
value received, "Activating cooling system", "Activating heating system", the alert for
a door and the status line for a door. -/
inductive Line where
  | received (value : Double)
  | cooling
  | heating
  | alert (sensorId : Int)
  | doorOk (sensorId : Int)
deriving DecidableEq

/-- The method `ClimateController::adjustSystem`. -/
def ClimateController.adjustSystem (temp : Double) : List Line :=
  if Double.lt Double.lit25 temp then [Line.cooling]
  else if Double.lt temp Double.lit18 then [Line.heating]
  else []

/-- The body of the lambda of `ClimateController`: the line with the value, then
`adjustSystem(e.value)`. -/
def ClimateLambda.run : ClimateLambda → TemperatureEvent → List Line
  | .adjust, e => Line.received e.value :: ClimateController.adjustSystem e.value

/-- The body of the lambda of `SecuritySystem`. -/
def SecurityLambda.run : SecurityLambda → DoorStatusEvent → List Line
  | .alert, e => if e.isOpen then [Line.alert e.sensorId] else [Line.doorOk e.sensorId]

/-- The lambdas of `domain.cpp` call neither `subscribe` nor a destructor of a handle. -/
def noReentry {F Args : Type} : F → Args → List (Op F) := fun _ _ => []

/-- The method `TemperatureSensor::update` on the channel `temperatureEvent` (address 0):
`temperatureEvent.trigger(TemperatureEvent{temp})`, with the lines the invoked callbacks
write, in order. -/
def TemperatureSensor.update (temperatureEvent : Event ClimateLambda) (temp : Double) :
    Option (Event ClimateLambda × List Line) :=
  (temperatureEvent.trigger 0 noReentry (TemperatureEvent.mk temp)).map
    (fun r => (r.1, r.2.flatMap (fun inv => inv.1.callback.run inv.2)))

/-- The method `DoorMonitor::checkDoor` on the channel `doorStatusEvent` (address 1):
`doorStatusEvent.trigger(DoorStatusEvent{isOpen, sensorId})`, with the lines written. -/
def DoorMonitor.checkDoor (doorStatusEvent : Event SecurityLambda) (sensorId : Int)
    (isOpen : Bool) : Option (Event SecurityLambda × List Line) :=
  (doorStatusEvent.trigger 1 noReentry (DoorStatusEvent.mk isOpen sensorId)).map
    (fun r => (r.1, r.2.flatMap (fun inv => inv.1.callback.run inv.2)))

/-- The channels of `main` once `climate` and `security` are constructed. -/
def mainHeap : Heap DomainCallable := (subscribeMany domainRequests (⟨[]⟩, domainHeap)).2

/-- The channel `temperatureEvent` in `main`. -/
def mainTemperatureEvent : Event ClimateLambda := mainHeap 0

/-- The channel `doorStatusEvent` in `main`. -/
def mainDoorStatusEvent : Event SecurityLambda := mainHeap 1

/-! ## Facts about `unsubscribe` and `subscribe` -/

theorem findIdx_erase_eq_eraseP {α : Type} (p : α → Bool) (l : List α) :
    (match l.findIdx? p with
      | some it => l.eraseIdx it
      | none => l) = l.eraseP p := by
  induction l with
  | nil => rfl
  | cons x xs ih =>
    by_cases hx : p x = true
    · simp [List.findIdx?_cons, hx, List.eraseP_cons]
    · simp only [List.findIdx?_cons, hx, List.eraseP_cons, Bool.false_eq_true, if_false,
        cond_false, List.findIdx?_start_succ]
      rw [← ih]
      cases h : xs.findIdx? p <;> simp

theorem unsubscribe_callbacks {F : Type} (ev : Event F) (id : Int) :
    (ev.unsubscribe id).callbacks_ = ev.callbacks_.eraseP (fun entry => entry.id == id) := by
  rw [← findIdx_erase_eq_eraseP]
  unfold Event.unsubscribe
  cases ev.callbacks_.findIdx? (fun entry => entry.id == id) <;> rfl

theorem unsubscribe_nextId {F : Type} (ev : Event F) (id : Int) :
    (ev.unsubscribe id).nextId_ = ev.nextId_ := by
  unfold Event.unsubscribe
  cases ev.callbacks_.findIdx? (fun entry => entry.id == id) <;> rfl

theorem unsubscribe_absent {F : Type} (ev : Event F) (id : Int)
    (h : ∀ e ∈ ev.callbacks_, e.id ≠ id) : ev.unsubscribe id = ev := by
  have hc : (ev.unsubscribe id).callbacks_ = ev.callbacks_ := by
    rw [unsubscribe_callbacks, List.eraseP_eq_self_iff]
    intro e he; simpa using h e he
  have hn := unsubscribe_nextId ev id
  cases ev; cases hu : Event.unsubscribe _ id
  simp_all

theorem eraseP_id_eq_filter {F : Type} (id : Int) (l : List (CallbackEntry F))
    (hp : (l.map (fun e => e.id)).Pairwise (fun x y => x < y)) :
    l.eraseP (fun entry => entry.id == id) = l.filter (fun entry => entry.id != id) := by
  induction l with
  | nil => rfl
  | cons x xs ih =>
    simp only [List.map_cons, List.pairwise_cons] at hp
    by_cases hx : x.id = id
    · have hall : ∀ e ∈ xs, (e.id != id) = true := by
        intro e he
        have : x.id < e.id := hp.1 e.id (List.mem_map_of_mem _ he)
        simp only [bne_iff_ne, ne_eq]; omega
      simp [List.eraseP_cons, hx, List.filter_cons, List.filter_eq_self.mpr hall]
    · simp [List.eraseP_cons, hx, List.filter_cons, ih hp.2]

theorem unsubscribe_callbacks_filter {F : Type} (ev : Event F) (id : Int) (hwf : ev.WF) :
    (ev.unsubscribe id).callbacks_ = ev.callbacks_.filter (fun entry => entry.id != id) := by
  rw [unsubscribe_callbacks, eraseP_id_eq_filter id _ hwf.1]

theorem WF_fresh (F : Type) : (Event.fresh F).WF := by
  simp [Event.WF, Event.fresh]

theorem wrapInt_eq (x : Int) (h1 : INT_MIN ≤ x) (h2 : x ≤ INT_MAX) : wrapInt x = x := by
  unfold wrapInt
  unfold INT_MIN at h1
  unfold INT_MAX at h2
  omega

theorem wrapInt_range (x : Int) : INT_MIN ≤ wrapInt x ∧ wrapInt x ≤ INT_MAX := by
  unfold wrapInt INT_MIN INT_MAX
  omega

theorem wrapInt_add (a b : Int) : wrapInt (wrapInt a + b) = wrapInt (a + b) := by
  unfold wrapInt
  omega

theorem subscribe_nextId {F : Type} (self : Nat) (ev : Event F) (callback : F) (name : String)
    (hr : INT_MIN ≤ ev.nextId_) (hm : ev.nextId_ < INT_MAX) :
    (ev.subscribe self callback name).1.nextId_ = ev.nextId_ + 1 := by
  show wrapInt (ev.nextId_ + 1) = ev.nextId_ + 1
  apply wrapInt_eq
  · unfold INT_MIN at hr ⊢; omega
  · unfold INT_MAX at hm ⊢; omega

theorem WF_subscribe {F : Type} (self : Nat) (ev : Event F) (callback : F) (name : String)
    (hwf : ev.WF) (hr : INT_MIN ≤ ev.nextId_) (hm : ev.nextId_ < INT_MAX) :
    (ev.subscribe self callback name).1.WF := by
  obtain ⟨hp, hlt⟩ := hwf
  constructor
  · simp only [Event.subscribe, List.map_append, List.map_cons, List.map_nil]
    rw [List.pairwise_append]
    refine ⟨hp, List.pairwise_singleton _ _, ?_⟩
    intro x hx y hy
    obtain ⟨e, he, rfl⟩ := List.mem_map.mp hx
    simp only [List.mem_singleton] at hy
    subst hy
    exact hlt e he
  · intro e he
    rw [subscribe_nextId self ev callback name hr hm]
    simp only [Event.subscribe, List.mem_append, List.mem_singleton] at he
    rcases he with he | rfl
    · have := hlt e he; omega
    · simp

theorem WF_unsubscribe {F : Type} (ev : Event F) (id : Int) (hwf : ev.WF) :
    (ev.unsubscribe id).WF := by
  have hsub : (ev.unsubscribe id).callbacks_.Sublist ev.callbacks_ := by
    rw [unsubscribe_callbacks]; exact List.eraseP_sublist _
  constructor
  · exact List.Pairwise.sublist (hsub.map _) hwf.1
  · intro e he
    rw [unsubscribe_nextId]
    exact hwf.2 e (hsub.subset he)

theorem runOps_append {F : Type} (self : Nat) (xs ys : List (Op F)) :
    ∀ ev : Event F, runOps self (xs ++ ys) ev = runOps self ys (runOps self xs ev) := by
  induction xs with
  | nil => intro ev; rfl
  | cons x xs ih => intro ev; exact ih _

theorem issuedIds_append {F : Type} (self : Nat) (xs ys : List (Op F)) :
    ∀ ev : Event F, issuedIds self (xs ++ ys) ev
      = issuedIds self xs ev ++ issuedIds self ys (runOps self xs ev) := by
  induction xs with
  | nil => intro ev; rfl
  | cons x xs ih =>
    intro ev
    cases x with
    | subscribe c n => simp [issuedIds, runOps, Op.apply, ih]
    | unsubscribe id => simp [issuedIds, runOps, Op.apply, ih]

/-- While the counter does not pass `INT_MAX`, a history keeps the ids sorted and below
the counter, moves the counter by the number of its `subscribe` calls, and every entry
it leaves registered is an old one or has an id from the old counter on. -/
theorem runOps_bounded {F : Type} (self : Nat) (ops : List (Op F)) :
    ∀ ev : Event F, ev.WF → INT_MIN ≤ ev.nextId_ →
      ev.nextId_ + (subscribeCount ops : Int) ≤ INT_MAX →
      (runOps self ops ev).WF ∧
      (runOps self ops ev).nextId_ = ev.nextId_ + (subscribeCount ops : Int) ∧
      ∀ e ∈ (runOps self ops ev).callbacks_, e ∈ ev.callbacks_ ∨ ev.nextId_ ≤ e.id := by
  induction ops with
  | nil => intro ev hwf _ _; exact ⟨hwf, by simp [runOps, subscribeCount], fun e he => Or.inl he⟩
  | cons op ops ih =>
    intro ev hwf hr hm
    cases op with
    | subscribe c n =>
      simp only [subscribeCount, Nat.cast_add, Nat.cast_one] at hm ⊢
      have hlt : ev.nextId_ < INT_MAX := by omega
      have hn := subscribe_nextId self ev c n hr hlt
      obtain ⟨k1, k2, k3⟩ := ih (ev.subscribe self c n).1 (WF_subscribe self ev c n hwf hr hlt)
        (by rw [hn]; omega) (by rw [hn]; omega)
      refine ⟨k1, by rw [show runOps self (Op.subscribe c n :: ops) ev
        = runOps self ops (ev.subscribe self c n).1 from rfl, k2, hn]; omega, ?_⟩
      intro e he
      rcases k3 e he with h | h
      · simp only [Event.subscribe, List.mem_append, List.mem_singleton] at h
        rcases h with h | rfl
        · exact Or.inl h
        · exact Or.inr (le_refl _)
      · rw [hn] at h; exact Or.inr (by omega)
    | unsubscribe id =>
      simp only [subscribeCount] at hm ⊢
      obtain ⟨k1, k2, k3⟩ := ih (ev.unsubscribe id) (WF_unsubscribe ev id hwf)
        (by rw [unsubscribe_nextId]; exact hr) (by rw [unsubscribe_nextId]; exact hm)
      refine ⟨k1, by rw [show runOps self (Op.unsubscribe id :: ops) ev
        = runOps self ops (ev.unsubscribe id) from rfl, k2, unsubscribe_nextId], ?_⟩
      intro e he
      rcases k3 e he with h | h
      · rw [unsubscribe_callbacks] at h
        exact Or.inl ((List.eraseP_sublist _).subset h)
      · rw [unsubscribe_nextId] at h; exact Or.inr h

/-- The ids issued along a history are the successive values of the wrapping counter. -/
theorem issuedIds_eq_range {F : Type} (self : Nat) (ops : List (Op F)) :
    ∀ ev : Event F, INT_MIN ≤ ev.nextId_ → ev.nextId_ ≤ INT_MAX →
      issuedIds self ops ev
        = (List.range (subscribeCount ops)).map
            (fun (k : Nat) => wrapInt (ev.nextId_ + (k : Int))) := by
  induction ops with
  | nil => intro ev _ _; rfl
  | cons op ops ih =>
    intro ev h1 h2
    cases op with
    | subscribe c n =>
      have hr := wrapInt_range (ev.nextId_ + 1)
      have hih := ih (ev.subscribe self c n).1 hr.1 hr.2
      simp only [issuedIds, subscribeCount, List.range_succ_eq_map, List.map_cons,
        List.map_map, hih]
      refine congrArg₂ List.cons ?_ ?_
      · simp [Event.subscribe, Subscription.ctor, wrapInt_eq _ h1 h2]
      · apply List.map_congr_left
        intro k _
        simp only [Event.subscribe, Function.comp_apply, Nat.cast_succ]
        rw [wrapInt_add]
        congr 1
        omega
    | unsubscribe id =>
      have hih := ih (ev.unsubscribe id) (by rw [unsubscribe_nextId]; exact h1)
        (by rw [unsubscribe_nextId]; exact h2)
      simp only [issuedIds, subscribeCount, hih, unsubscribe_nextId]

/-- The history `churn` of `k` rounds leaves the channel empty with the counter at `k`. -/
theorem runOps_churn {F : Type} (self : Nat) (callback : F) (name : String) :
    ∀ k : Nat, (k : Int) ≤ INT_MAX →
      runOps self (churn callback name k) (Event.fresh F) = ⟨(k : Int), []⟩ := by
  intro k
  induction k with
  | zero => intro _; rfl
  | succ k ih =>
    intro hk
    have hk' : (k : Int) < INT_MAX := by push_cast at hk; omega
    rw [churn, runOps_append, ih (le_of_lt hk')]
    have hw : wrapInt ((k : Int) + 1) = (k : Int) + 1 := by
      apply wrapInt_eq
      · unfold INT_MIN; omega
      · omega
    simp [runOps, Op.apply, Event.subscribe, Event.unsubscribe, hw]

theorem destroy_active {F : Nat → Type} (h : Heap F) (a : Nat) (s : Subscription)
    (hs : s.event_ = some a) : s.destroy h a = (h a).unsubscribe s.id_ := by
  simp [Subscription.destroy, hs]

theorem destroy_other {F : Nat → Type} (h : Heap F) (a b : Nat) (s : Subscription)
    (hs : s.event_ = some a) (hb : b ≠ a) : s.destroy h b = h b := by
  simp [Subscription.destroy, hs, Function.update_noteq hb]

/-! ## Dispatch without reentrant modification -/

theorem runReentrant_quiet {F : Type} (self : Nat) (rs : List (Op F)) (ev : Event F)
    (h : ∀ r ∈ rs, r.modifies ev = false) : runReentrant self rs ev = (ev, false) := by
  induction rs with
  | nil => rfl
  | cons r rs ih =>
    have hr : r.modifies ev = false := h r (List.mem_cons_self _ _)
    have happ : r.apply self ev = ev := by
      cases r with
      | subscribe c n => simp [Op.modifies] at hr
      | unsubscribe id =>
        simp only [Op.modifies, List.any_eq_false] at hr
        have : ev.callbacks_.findIdx? (fun entry => entry.id == id) = none := by
          rw [List.findIdx?_eq_none_iff]
          intro x hx
          simpa using hr x hx
        simp [Op.apply, Event.unsubscribe, this]
    simp only [runReentrant, happ, hr, Bool.false_or]
    rw [ih (fun r hr => h r (List.mem_cons_of_mem _ hr))]

theorem triggerLoop_quiet {F Args : Type} (self : Nat) (call : F → Args → List (Op F))
    (args : Args) (ev : Event F)
    (hq : ∀ e ∈ ev.callbacks_, ∀ r ∈ call e.callback args, r.modifies ev = false) :
    ∀ (rest pre : List (CallbackEntry F)) (trace : List (Invocation F Args)),
      ev.callbacks_ = pre ++ rest →
      triggerLoop self call args rest.length pre.length ev trace
        = some (ev, trace ++ rest.map (fun e => (e, args))) := by
  intro rest
  induction rest with
  | nil => intro pre trace _; simp [triggerLoop]
  | cons e rest ih =>
    intro pre trace hsplit
    have hget : ev.callbacks_.get? pre.length = some e := by
      rw [hsplit, List.get?_eq_getElem?, List.getElem?_append_right (Nat.le_refl _)]; simp
    have hmem : e ∈ ev.callbacks_ := by rw [hsplit]; simp
    have hrun := runReentrant_quiet self (call e.callback args) ev (hq e hmem)
    have hnext := ih (pre ++ [e]) (trace ++ [(e, args)]) (by rw [hsplit]; simp)
    simp only [List.length_append, List.length_singleton] at hnext
    simp only [List.length_cons, triggerLoop, hget, hrun]
    simpa using hnext

theorem trigger_quiet {F Args : Type} (self : Nat) (call : F → Args → List (Op F))
    (args : Args) (ev : Event F)
    (hq : ∀ e ∈ ev.callbacks_, ∀ r ∈ call e.callback args, r.modifies ev = false) :
    ev.trigger self call args = some (ev, ev.callbacks_.map (fun e => (e, args))) := by
  have h := triggerLoop_quiet self call args ev hq ev.callbacks_ [] [] (by simp)
  simpa [Event.trigger] using h

theorem subscribeAll_callbacks {F : Type} (self : Nat) (cs : List (F × String)) :
    ∀ ev : Event F, ∃ added : List (CallbackEntry F),
      (subscribeAll self ev cs).callbacks_ = ev.callbacks_ ++ added ∧
      added.map (fun e => e.callback) = cs.map (fun c => c.1) := by
  induction cs with
  | nil => intro ev; exact ⟨[], by simp [subscribeAll]⟩
  | cons c cs ih =>
    intro ev
    obtain ⟨added, h1, h2⟩ := ih (ev.subscribe self c.1 c.2).1
    refine ⟨⟨ev.nextId_, c.1, c.2⟩ :: added, ?_, ?_⟩
    · simp only [subscribeAll, List.foldl_cons] at h1 ⊢
      rw [h1]; simp [Event.subscribe]
    · simp [h2]

theorem runReentrant_flag_false {F : Type} (self : Nat) (rs : List (Op F)) :
    ∀ ev : Event F, (runReentrant self rs ev).2 = false → ∀ r ∈ rs, r.modifies ev = false := by
  induction rs with
  | nil => intro ev _ r hr; simp at hr
  | cons r rs ih =>
    intro ev hflag
    simp only [runReentrant, Bool.or_eq_false_iff] at hflag
    have hr : r.modifies ev = false := hflag.1
    have happ : r.apply self ev = ev := by
      have := runReentrant_quiet self [r] ev (by simpa using hr)
      simpa [runReentrant] using congrArg Prod.fst this
    have htail := ih ev (by rw [← happ]; exact hflag.2)
    intro r' hr'
    rcases List.mem_cons.mp hr' with rfl | h
    · exact hr
    · exact htail r' h

theorem triggerLoop_defined {F Args : Type} (self : Nat) (call : F → Args → List (Op F))
    (args : Args) (ev : Event F) :
    ∀ (rest pre : List (CallbackEntry F)) (trace : List (Invocation F Args)),
      ev.callbacks_ = pre ++ rest →
      (triggerLoop self call args rest.length pre.length ev trace).isSome = true →
      ∀ e ∈ rest, ∀ r ∈ call e.callback args, r.modifies ev = false := by
  intro rest
  induction rest with
  | nil => intro pre trace _ _ e he; simp at he
  | cons x rest ih =>
    intro pre trace hsplit hsome
    have hget : ev.callbacks_.get? pre.length = some x := by
      rw [hsplit, List.get?_eq_getElem?, List.getElem?_append_right (Nat.le_refl _)]; simp
    simp only [List.length_cons, triggerLoop, hget] at hsome
    cases hflag : (runReentrant self (call x.callback args) ev).2 with
    | true =>
      rw [show runReentrant self (call x.callback args) ev
        = ((runReentrant self (call x.callback args) ev).1, true) from by rw [← hflag]] at hsome
      simp at hsome
    | false =>
      have hx := runReentrant_flag_false self _ ev hflag
      rw [runReentrant_quiet self _ ev hx] at hsome
      simp only [Bool.false_eq_true, if_false] at hsome
      have hrest := ih (pre ++ [x]) (trace ++ [(x, args)]) (by rw [hsplit]; simp)
        (by simpa using hsome)
      intro e he
      rcases List.mem_cons.mp he with rfl | h
      · exact hx
      · exact hrest e h

/-! ## The manager -/

theorem manager_subscribe_eq {F : Nat → Type} (em : EventsManager) (h : Heap F) (event : Nat)
    (cb : F event) (info : String) :
    em.subscribe h event cb info
      = (⟨em.subscriptions_ ++ [⟨⟨some event, (h event).nextId_⟩⟩]⟩,
         Function.update h event ((h event).subscribe event cb info).1) := by
  simp [EventsManager.subscribe, SubscriptionWrapper.ctor, Subscription.move,
    Subscription.destroy, Event.subscribe, Subscription.ctor]

theorem Balanced_subscribe {F : Nat → Type} (em : EventsManager) (h : Heap F) (event : Nat)
    (cb : F event) (info : String) (a : Nat) (hb : Balanced em.subscriptions_ h a) :
    Balanced (em.subscribe h event cb info).1.subscriptions_
      (em.subscribe h event cb info).2 a := by
  rw [manager_subscribe_eq]
  intro id
  have hid := hb id
  by_cases hae : a = event
  · subst hae
    simp only [Function.update_same, Event.subscribe, List.countP_append,
      List.countP_singleton, hid]
    simp
  · simp only [Function.update_noteq hae, List.countP_append, List.countP_singleton, hid]
    have : ¬ event = a := fun hc => hae hc.symm
    simp [this]

theorem Balanced_subscribeMany {F : Nat → Type} (reqs : List (Request F)) (a : Nat) :
    ∀ st : EventsManager × Heap F, Balanced st.1.subscriptions_ st.2 a →
      Balanced (subscribeMany reqs st).1.subscriptions_ (subscribeMany reqs st).2 a := by
  induction reqs with
  | nil => intro st h; exact h
  | cons r reqs ih =>
    intro st h
    exact ih _ (Balanced_subscribe st.1 st.2 r.event r.cb r.info a h)

theorem countP_eraseP_id {F : Type} (l : List (CallbackEntry F)) (i id : Int)
    (hex : ∃ e ∈ l, e.id = i) :
    (l.eraseP (fun e => e.id == i)).countP (fun e => e.id == id) + (if i = id then 1 else 0)
      = l.countP (fun e => e.id == id) := by
  obtain ⟨e, he, hid⟩ := hex
  have hp : (fun x : CallbackEntry F => x.id == i) e = true := by simp [hid]
  obtain ⟨x, l1, l2, _, hx, hl, hr⟩ :=
    List.exists_of_eraseP (p := fun x : CallbackEntry F => x.id == i) he hp
  have hxi : x.id = i := by simpa using hx
  rw [hr, hl]
  simp only [List.countP_append, List.countP_cons, beq_iff_eq, hxi]
  omega

theorem destroyAll_balanced {F : Nat → Type} (a : Nat) (order : List SubscriptionWrapper) :
    ∀ h : Heap F, Balanced order h a → (destroyAll order h a).callbacks_ = [] := by
  induction order with
  | nil =>
    intro h hb
    apply List.eq_nil_iff_forall_not_mem.mpr
    intro e he
    have := hb e.id
    simp only [List.countP_nil, List.countP_eq_zero] at this
    exact absurd (by simp) (this e he)
  | cons w ws ih =>
    intro h hb
    show (destroyAll ws (w.sub.destroy h) a).callbacks_ = []
    apply ih
    intro id
    have hid := hb id
    rw [List.countP_cons] at hid
    cases hev : w.sub.event_ with
    | none =>
      have hd : w.sub.destroy h = h := by simp [Subscription.destroy, hev]
      rw [hd, hid]; simp [hev]
    | some b =>
      by_cases hab : a = b
      · subst hab
        rw [destroy_active h a w.sub hev, unsubscribe_callbacks]
        have hpos : ∃ e ∈ (h a).callbacks_, e.id = w.sub.id_ := by
          have h1 := hb w.sub.id_
          rw [List.countP_cons] at h1
          simp only [hev, beq_self_eq_true, Bool.and_self, if_true] at h1
          have h2 : 0 < (h a).callbacks_.countP (fun e => e.id == w.sub.id_) := by omega
          obtain ⟨e, he, hp⟩ := List.countP_pos_iff.mp h2
          exact ⟨e, he, by simpa using hp⟩
        have hc := countP_eraseP_id (h a).callbacks_ w.sub.id_ id hpos
        simp only [hev, beq_self_eq_true, Bool.true_and, beq_iff_eq] at hid
        omega
      · rw [destroy_other h b a w.sub hev hab, hid]
        have : ¬ b = a := fun hc => hab hc.symm
        simp [hev, this]

theorem Balanced_perm {F : Nat → Type} (ws order : List SubscriptionWrapper) (h : Heap F)
    (a : Nat) (hp : order.Perm ws) (hb : Balanced ws h a) : Balanced order h a := by
  intro id
  rw [hb id]
  exact (hp.countP_eq _).symm

theorem trigger_empty {F Args : Type} (self : Nat) (call : F → Args → List (Op F))
    (ev : Event F) (v : Args) (he : ev.callbacks_ = []) :
    ev.trigger self call v = some (ev, []) := by
  have := trigger_quiet self call v ev (by rw [he]; intro e h; simp at h)
  rw [this, he]; rfl

/-! ## Labels -/

theorem eraseP_unlabelled {F : Type} (id : Int) :
    ∀ l1 l2 : List (CallbackEntry F),
      l1.map (fun e => (e.id, e.callback)) = l2.map (fun e => (e.id, e.callback)) →
      (l1.eraseP (fun entry => entry.id == id)).map (fun e => (e.id, e.callback))
        = (l2.eraseP (fun entry => entry.id == id)).map (fun e => (e.id, e.callback)) := by
  intro l1
  induction l1 with
  | nil =>
    intro l2 h
    cases l2 with
    | nil => rfl
    | cons y ys => simp at h
  | cons x xs ih =>
    intro l2 h
    cases l2 with
    | nil => simp at h
    | cons y ys =>
      simp only [List.map_cons, List.cons.injEq, Prod.mk.injEq] at h
      obtain ⟨⟨hid, hcb⟩, htl⟩ := h
      by_cases hx : x.id = id
      · have hy : y.id = id := by rw [← hid]; exact hx
        simp [List.eraseP_cons, hx, hy, htl]
      · have hy : ¬ y.id = id := by rw [← hid]; exact hx
        simp [List.eraseP_cons, hx, hy, hid, hcb, ih ys htl]

theorem any_id_unlabelled {F : Type} (id : Int) :
    ∀ l1 l2 : List (CallbackEntry F),
      l1.map (fun e => (e.id, e.callback)) = l2.map (fun e => (e.id, e.callback)) →
      l1.any (fun entry => entry.id == id) = l2.any (fun entry => entry.id == id) := by
  intro l1
  induction l1 with
  | nil =>
    intro l2 h
    cases l2 with
    | nil => rfl
    | cons y ys => simp at h
  | cons x xs ih =>
    intro l2 h
    cases l2 with
    | nil => simp at h
    | cons y ys =>
      simp only [List.map_cons, List.cons.injEq, Prod.mk.injEq] at h
      simp only [List.any_cons, h.1.1, ih ys h.2]

theorem apply_unlabelled {F : Type} (self : Nat) (op : Op F) (ev1 ev2 : Event F)
    (h : ev1.unlabelled = ev2.unlabelled) :
    (op.apply self ev1).unlabelled = (op.apply self ev2).unlabelled ∧
    op.modifies ev1 = op.modifies ev2 := by
  simp only [Event.unlabelled, Prod.mk.injEq] at h
  obtain ⟨hn, hl⟩ := h
  cases op with
  | subscribe c n =>
    simp [Op.apply, Op.modifies, Event.subscribe, Event.unlabelled, hn, hl]
  | unsubscribe id =>
    refine ⟨?_, any_id_unlabelled id _ _ hl⟩
    simp only [Op.apply, Event.unlabelled, unsubscribe_nextId, unsubscribe_callbacks,
      Prod.mk.injEq]
    exact ⟨hn, eraseP_unlabelled id _ _ hl⟩

theorem runReentrant_unlabelled {F : Type} (self : Nat) (rs : List (Op F)) :
    ∀ ev1 ev2 : Event F, ev1.unlabelled = ev2.unlabelled →
      (runReentrant self rs ev1).1.unlabelled = (runReentrant self rs ev2).1.unlabelled ∧
      (runReentrant self rs ev1).2 = (runReentrant self rs ev2).2 := by
  induction rs with
  | nil => intro ev1 ev2 h; exact ⟨h, rfl⟩
  | cons r rs ih =>
    intro ev1 ev2 h
    obtain ⟨ha, hm⟩ := apply_unlabelled self r ev1 ev2 h
    obtain ⟨h1, h2⟩ := ih _ _ ha
    simp only [runReentrant]
    exact ⟨h1, by rw [hm, h2]⟩

theorem triggerLoop_unlabelled {F Args : Type} (self : Nat) (call : F → Args → List (Op F))
    (args : Args) :
    ∀ (n i : Nat) (ev1 ev2 : Event F) (t1 t2 : List (Invocation F Args)),
      ev1.unlabelled = ev2.unlabelled → unlabelledTrace t1 = unlabelledTrace t2 →
      unlabelledOutcome (triggerLoop self call args n i ev1 t1)
        = unlabelledOutcome (triggerLoop self call args n i ev2 t2) := by
  intro n
  induction n with
  | zero =>
    intro i ev1 ev2 t1 t2 he ht
    simp [triggerLoop, unlabelledOutcome, he, ht]
  | succ n ih =>
    intro i ev1 ev2 t1 t2 he ht
    have hl : ev1.callbacks_.map (fun e => (e.id, e.callback))
        = ev2.callbacks_.map (fun e => (e.id, e.callback)) := by
      simp only [Event.unlabelled, Prod.mk.injEq] at he
      exact he.2
    have hget : (ev1.callbacks_.get? i).map (fun e => (e.id, e.callback))
        = (ev2.callbacks_.get? i).map (fun e => (e.id, e.callback)) := by
      have := congrArg (fun l => l.get? i) hl
      simpa [List.get?_eq_getElem?, List.getElem?_map] using this
    cases h1 : ev1.callbacks_.get? i with
    | none =>
      cases h2 : ev2.callbacks_.get? i with
      | none => simp only [triggerLoop, h1, h2]
      | some e2 => rw [h1, h2] at hget; simp at hget
    | some e1 =>
      cases h2 : ev2.callbacks_.get? i with
      | none => rw [h1, h2] at hget; simp at hget
      | some e2 =>
        rw [h1, h2] at hget
        simp only [Option.map_some', Option.some.injEq, Prod.mk.injEq] at hget
        obtain ⟨hid, hcb⟩ := hget
        obtain ⟨hs, hf⟩ := runReentrant_unlabelled self (call e1.callback args) ev1 ev2 he
        simp only [triggerLoop, h1, h2]
        rw [← hcb]
        cases hflag : (runReentrant self (call e1.callback args) ev1).2 with
        | true =>
          have hflag2 := hf ▸ hflag
          rw [show runReentrant self (call e1.callback args) ev1
              = ((runReentrant self (call e1.callback args) ev1).1, true) from by rw [← hflag],
            show runReentrant self (call e1.callback args) ev2
              = ((runReentrant self (call e1.callback args) ev2).1, true) from by rw [← hflag2]]
          rfl
        | false =>
          have hflag2 := hf ▸ hflag
          rw [show runReentrant self (call e1.callback args) ev1
              = ((runReentrant self (call e1.callback args) ev1).1, false) from by rw [← hflag],
            show runReentrant self (call e1.callback args) ev2
              = ((runReentrant self (call e1.callback args) ev2).1, false) from by rw [← hflag2]]
          simp only [Bool.false_eq_true, if_false]
          apply ih _ _ _ _ _ hs
          simp only [unlabelledTrace, List.map_append, List.map_cons, List.map_nil] at ht ⊢
          rw [ht, hid, hcb]

theorem trigger_unlabelled {F Args : Type} (self : Nat) (call : F → Args → List (Op F))
    (args : Args) (ev1 ev2 : Event F) (he : ev1.unlabelled = ev2.unlabelled) :
    unlabelledOutcome (ev1.trigger self call args)
      = unlabelledOutcome (ev2.trigger self call args) := by
  have hlen : ev1.callbacks_.length = ev2.callbacks_.length := by
    simp only [Event.unlabelled, Prod.mk.injEq] at he
    simpa using congrArg List.length he.2
  unfold Event.trigger
  rw [hlen]
  exact triggerLoop_unlabelled self call args _ 0 ev1 ev2 [] [] he rfl

theorem runActions_unlabelled {F Args : Type} (self : Nat) (call : F → Args → List (Op F))
    (acts : List (Action F Args)) :
    ∀ (ev1 ev2 : Event F) (t1 t2 : List (Invocation F Args)),
      ev1.unlabelled = ev2.unlabelled → unlabelledTrace t1 = unlabelledTrace t2 →
      unlabelledOutcome (runActions self call acts ev1 t1)
        = unlabelledOutcome (runActions self call acts ev2 t2) := by
  induction acts with
  | nil =>
    intro ev1 ev2 t1 t2 he ht
    simp [runActions, unlabelledOutcome, he, ht]
  | cons act acts ih =>
    intro ev1 ev2 t1 t2 he ht
    cases act with
    | call op =>
      simp only [runActions]
      exact ih _ _ _ _ (apply_unlabelled self op ev1 ev2 he).1 ht
    | trigger args =>
      have htr := trigger_unlabelled self call args ev1 ev2 he
      simp only [runActions]
      cases h1 : ev1.trigger self call args with
      | none =>
        cases h2 : ev2.trigger self call args with
        | none => rfl
        | some r2 => rw [h1, h2] at htr; simp [unlabelledOutcome] at htr
      | some r1 =>
        cases h2 : ev2.trigger self call args with
        | none => rw [h1, h2] at htr; simp [unlabelledOutcome] at htr
        | some r2 =>
          rw [h1, h2] at htr
          simp only [unlabelledOutcome, Option.map_some', Option.some.injEq,
            Prod.mk.injEq] at htr
          apply ih _ _ _ _ htr.1
          simp only [unlabelledTrace, List.map_append] at ht htr ⊢
          rw [ht, htr.2]

/-! ## Handles are never duplicated -/

theorem perm_cons_eraseIdx {α : Type} (x : α) :
    ∀ (l : List α) (k : Nat), l.get? k = some x → l.Perm (x :: l.eraseIdx k) := by
  intro l
  induction l with
  | nil => intro k h; simp at h
  | cons y ys ih =>
    intro k h
    cases k with
    | zero =>
      simp only [List.get?_cons_zero, Option.some.injEq] at h
      subst h; exact List.Perm.refl _
    | succ k =>
      simp only [List.get?_cons_succ] at h
      exact ((ih k h).cons y).trans (List.Perm.swap x y _)

theorem set_perm_cons_eraseIdx {α : Type} (x : α) :
    ∀ (l : List α) (k : Nat), k < l.length → (l.set k x).Perm (x :: l.eraseIdx k) := by
  intro l
  induction l with
  | nil => intro k h; simp at h
  | cons y ys ih =>
    intro k h
    cases k with
    | zero => exact List.Perm.refl _
    | succ k =>
      simp only [List.length_cons, Nat.add_lt_add_iff_right] at h
      exact ((ih k h).cons y).trans (List.Perm.swap x y _)

theorem Inv_of_subperm {F : Nat → Type} (w : World F) (hs : List Subscription)
    (inert : Subscription) (hi : inert.event_ = none) (hinv : w.Inv)
    (hsub : hs.Subperm (inert :: w.handles)) : (⟨w.events, hs⟩ : World F).Inv := by
  obtain ⟨hnd, hlt⟩ := hinv
  constructor
  · have h1 : (hs.filter (fun s => s.Active)).Subperm
        ((inert :: w.handles).filter (fun s => s.Active)) := hsub.filter _
    have h2 : (inert :: w.handles).filter (fun s => s.Active)
        = w.handles.filter (fun s => s.Active) := by
      simp [List.filter_cons, Subscription.Active, hi]
    rw [h2] at h1
    obtain ⟨l, hl1, hl2⟩ := h1
    exact hl1.nodup_iff.mp (hl2.nodup hnd)
  · intro s hs' a ha
    rcases List.mem_cons.mp (hsub.subset hs') with rfl | hmem
    · rw [hi] at ha; simp at ha
    · exact hlt s hmem a ha

theorem destroy_nextId {F : Nat → Type} (s : Subscription) (h : Heap F) (a : Nat) :
    (s.destroy h a).nextId_ = (h a).nextId_ := by
  cases hev : s.event_ with
  | none => simp [Subscription.destroy, hev]
  | some b =>
    by_cases hab : a = b
    · subst hab; rw [destroy_active _ _ _ hev, unsubscribe_nextId]
    · rw [destroy_other _ b a s hev hab]

theorem step_nextId {F : Nat → Type} (st : Step F) (w : World F) (a : Nat) :
    ((st.run w).events a).nextId_
      = if st.subscribesTo a = true then wrapInt ((w.events a).nextId_ + 1)
        else (w.events a).nextId_ := by
  cases st with
  | subscribe event callback name =>
    by_cases hae : a = event
    · subst hae
      simp [Step.run, Step.subscribesTo, Event.subscribe]
    · have : ¬ event = a := fun hc => hae hc.symm
      simp [Step.run, Step.subscribesTo, Function.update_noteq hae, this]
  | moveConstruct other =>
    simp only [Step.run, Step.subscribesTo]
    cases w.handles.get? other <;> simp
  | moveAssign dst src =>
    simp only [Step.run, Step.subscribesTo]
    by_cases hds : dst = src
    · simp [hds]
    · simp only [hds, if_false]
      cases w.handles.get? dst <;> cases w.handles.get? src <;> simp
  | destroy handle =>
    simp only [Step.run, Step.subscribesTo]
    cases w.handles.get? handle with
    | none => simp
    | some s => simp [destroy_nextId]

theorem Bounded_step {F : Nat → Type} (st : Step F) (steps : List (Step F)) (w : World F)
    (hb : Bounded w (st :: steps)) :
    Bounded (st.run w) steps ∧
    ∀ a, st.subscribesTo a = true →
      INT_MIN ≤ (w.events a).nextId_ ∧ (w.events a).nextId_ < INT_MAX := by
  constructor
  · intro a
    obtain ⟨h1, h2⟩ := hb a
    rw [step_nextId]
    simp only [subscribesOn, List.countP_cons] at h2 ⊢
    by_cases hs : st.subscribesTo a = true
    · simp only [hs, if_true, Nat.cast_add, Nat.cast_one] at h2 ⊢
      rw [wrapInt_eq _ (by omega) (by omega)]
      constructor <;> omega
    · simp only [hs, if_false, Nat.add_zero] at h2 ⊢
      exact ⟨h1, h2⟩
  · intro a hs
    obtain ⟨h1, h2⟩ := hb a
    simp only [subscribesOn, List.countP_cons, hs, if_true, Nat.cast_add, Nat.cast_one] at h2
    exact ⟨h1, by omega⟩

theorem Inv_step {F : Nat → Type} (st : Step F) (w : World F) (hinv : w.Inv)
    (hb : ∀ a, st.subscribesTo a = true →
      INT_MIN ≤ (w.events a).nextId_ ∧ (w.events a).nextId_ < INT_MAX) :
    (st.run w).Inv := by
  cases st with
  | subscribe event callback name =>
    obtain ⟨hnd, hlt⟩ := hinv
    have hbe := hb event (by simp [Step.subscribesTo])
    have hw : wrapInt ((w.events event).nextId_ + 1) = (w.events event).nextId_ + 1 :=
      subscribe_nextId event (w.events event) callback name hbe.1 hbe.2
    constructor
    · simp only [Step.run, Event.subscribe, Subscription.ctor, List.filter_append]
      rw [List.nodup_append]
      refine ⟨hnd, by simp [List.filter_cons, Subscription.Active], ?_⟩
      intro x hx hy
      simp only [List.filter_cons, Subscription.Active, Option.isSome_some, if_true,
        List.filter_nil, List.mem_singleton] at hy
      subst hy
      have := hlt _ (List.mem_filter.mp hx).1 event rfl
      simp at this
    · intro s hs a ha
      simp only [Step.run, List.mem_append, List.mem_singleton] at hs
      by_cases hae : a = event
      · subst hae
        simp only [Step.run, Function.update_same, Event.subscribe, hw]
        rcases hs with hs | rfl
        · have := hlt s hs a ha; omega
        · simp [Event.subscribe, Subscription.ctor]
      · simp only [Step.run, Function.update_noteq hae]
        rcases hs with hs | rfl
        · exact hlt s hs a ha
        · simp only [Event.subscribe, Subscription.ctor, Option.some.injEq] at ha
          exact absurd ha.symm hae
  | moveConstruct other =>
    simp only [Step.run]
    cases hget : w.handles.get? other with
    | none => exact hinv
    | some s =>
      have hk : other < w.handles.length := by
        rw [List.get?_eq_getElem?] at hget
        exact (List.getElem?_eq_some_iff.mp hget).1
      apply Inv_of_subperm w _ ⟨none, s.id_⟩ rfl hinv
      apply List.Perm.subperm
      have h1 := set_perm_cons_eraseIdx (⟨none, s.id_⟩ : Subscription) w.handles other hk
      have h2 := perm_cons_eraseIdx s w.handles other hget
      have h3 : (w.handles.set other s.move.2 ++ [s.move.1]).Perm
          (s :: (⟨none, s.id_⟩ : Subscription) :: w.handles.eraseIdx other) := by
        have : s.move.1 = s := rfl
        rw [this]
        exact (List.perm_append_singleton _ _).trans (h1.cons s)
      exact h3.trans ((List.Perm.swap _ _ _).trans (h2.symm.cons _))
  | moveAssign dst src =>
    simp only [Step.run]
    by_cases hds : dst = src
    · simp [hds]; exact hinv
    · simp only [hds, if_false]
      cases hd : w.handles.get? dst with
      | none => exact hinv
      | some d =>
        cases hsrc : w.handles.get? src with
        | none => exact hinv
        | some s =>
          have hkd : dst < w.handles.length := by
            rw [List.get?_eq_getElem?] at hd
            exact (List.getElem?_eq_some_iff.mp hd).1
          have hks : src < w.handles.length := by
            rw [List.get?_eq_getElem?] at hsrc
            exact (List.getElem?_eq_some_iff.mp hsrc).1
          have hs1 : (d.moveAssign s).1 = s := rfl
          simp only [hs1]
          apply Inv_of_subperm w _ (d.moveAssign s).2 rfl hinv
          have hget1 : (w.handles.set dst s).get? src = some s := by
            rw [List.get?_eq_getElem?, List.getElem?_set_ne hds, ← List.get?_eq_getElem?, hsrc]
          have p1 := set_perm_cons_eraseIdx (d.moveAssign s).2 (w.handles.set dst s) src
            (by simpa using hks)
          have p2 := perm_cons_eraseIdx s (w.handles.set dst s) src hget1
          have p3 := set_perm_cons_eraseIdx s w.handles dst hkd
          have p4 : ((w.handles.set dst s).eraseIdx src).Perm (w.handles.eraseIdx dst) :=
            List.Perm.cons_inv (p2.symm.trans p3)
          refine (p1.trans (p4.cons _)).subperm.trans ?_
          exact ((List.eraseIdx_sublist _ _).cons₂ _).subperm
  | destroy handle =>
    simp only [Step.run]
    cases hget : w.handles.get? handle with
    | none => exact hinv
    | some s =>
      obtain ⟨hnd, hlt⟩ := hinv
      have hsub := List.eraseIdx_sublist w.handles handle
      constructor
      · exact (hsub.filter _).nodup hnd
      · intro x hx a ha
        have hx' := hlt x (hsub.subset hx) a ha
        have hn : (s.destroy w.events a).nextId_ = (w.events a).nextId_ := by
          cases hev : s.event_ with
          | none => simp [Subscription.destroy, hev]
          | some b =>
            by_cases hab : a = b
            · subst hab; rw [destroy_active _ _ _ hev, unsubscribe_nextId]
            · rw [destroy_other _ b a s hev hab]
        show x.id_ < (s.destroy w.events a).nextId_
        rw [hn]; exact hx'

theorem Inv_runSteps {F : Nat → Type} (steps : List (Step F)) :
    ∀ w : World F, w.Inv → Bounded w steps → (runSteps steps w).Inv := by
  induction steps with
  | nil => intro w h _; exact h
  | cons st steps ih =>
    intro w h hb
    obtain ⟨hb1, hb2⟩ := Bounded_step st steps w hb
    exact ih _ (Inv_step st w h hb2) hb1

/-- In every state reached by a program that makes at most `INT_MAX` subscriptions on
each channel, no (channel, id) pair is held by two Active handles. -/
theorem holders_le_one {F : Nat → Type} (steps : List (Step F)) (a : Nat) (id : Int)
    (hb : ∀ c, (subscribesOn c steps : Int) ≤ INT_MAX) :
    (runSteps steps (World.init F)).holders a id ≤ 1 := by
  have hinv : (runSteps steps (World.init F)).Inv :=
    Inv_runSteps steps _ ⟨by simp [World.init], by intro s hs; simp [World.init] at hs⟩
      (fun c => ⟨by simp [World.init, Event.fresh, INT_MIN],
        by simpa [World.init, Event.fresh] using hb c⟩)
  have hcount : (runSteps steps (World.init F)).holders a id
      = ((runSteps steps (World.init F)).handles.filter (fun s => s.Active)).count
          ⟨some a, id⟩ := by
    simp only [World.holders, List.count, List.countP_filter]
    apply List.countP_congr
    intro s _
    cases s with
    | mk ev i =>
      cases ev with
      | none => simp [Subscription.Active]
      | some b => simp [Subscription.Active]
  rw [hcount]
  exact List.nodup_iff_count_le_one.mp hinv.1 _

/-! ## Order of teardown -/

theorem eraseP_id_comm {F : Type} (a b : Int) (l : List (CallbackEntry F)) :
    (l.eraseP (fun e => e.id == a)).eraseP (fun e => e.id == b)
      = (l.eraseP (fun e => e.id == b)).eraseP (fun e => e.id == a) := by
  induction l with
  | nil => rfl
  | cons x xs ih =>
    by_cases ha : x.id = a <;> by_cases hb : x.id = b
    · subst ha; subst hb; rfl
    · have hab : ¬ a = b := by rw [← ha]; exact hb
      simp [List.eraseP_cons, ha, hb, hab]
    · have hba : ¬ b = a := by rw [← hb]; exact ha
      simp [List.eraseP_cons, ha, hb, hba]
    · simp [List.eraseP_cons, ha, hb, ih]

theorem Event.ext_fields {F : Type} (e1 e2 : Event F) (hn : e1.nextId_ = e2.nextId_)
    (hc : e1.callbacks_ = e2.callbacks_) : e1 = e2 := by
  cases e1; cases e2; simp_all

theorem unsubscribe_comm {F : Type} (ev : Event F) (a b : Int) :
    (ev.unsubscribe a).unsubscribe b = (ev.unsubscribe b).unsubscribe a := by
  apply Event.ext_fields
  · simp [unsubscribe_nextId]
  · simp only [unsubscribe_callbacks]; exact eraseP_id_comm a b _

theorem destroy_comm {F : Nat → Type} (s1 s2 : Subscription) (h : Heap F) :
    s1.destroy (s2.destroy h) = s2.destroy (s1.destroy h) := by
  cases h1 : s1.event_ with
  | none => simp [Subscription.destroy, h1]
  | some a1 =>
    cases h2 : s2.event_ with
    | none => simp [Subscription.destroy, h2]
    | some a2 =>
      by_cases ha : a1 = a2
      · subst ha
        simp only [Subscription.destroy, h1, h2, Function.update_same, Function.update_idem]
        rw [unsubscribe_comm]
      · simp only [Subscription.destroy, h1, h2]
        rw [Function.update_noteq ha, Function.update_noteq (Ne.symm ha),
          Function.update_comm ha]

theorem destroyAll_perm {F : Nat → Type} (order1 order2 : List SubscriptionWrapper)
    (hp : order1.Perm order2) (h : Heap F) : destroyAll order1 h = destroyAll order2 h := by
  unfold destroyAll
  exact hp.foldl_eq' (fun x _ y _ z => destroy_comm y.sub x.sub z) h

/-! ## Entries that no handle holds -/

/-- C1, as stated, fails: three callbacks are subscribed to a fresh channel and the first
destroys its own handle while it runs. The erase moves the second entry under the
iterator, the loop steps past it, and the dispatch does not invoke the three callbacks
once each in order: in the model it is undefined. -/
theorem trigger_reentrant_first_of_three_counterexample :
    (subscribeAll 0 (Event.fresh Nat) [(7, "a"), (8, "b"), (9, "c")]).callbacks_
      = [⟨0, 7, "a"⟩, ⟨1, 8, "b"⟩, ⟨2, 9, "c"⟩] ∧
    (subscribeAll 0 (Event.fresh Nat) [(7, "a"), (8, "b"), (9, "c")]).trigger 0
        (fun c (_ : Nat) => if c = 7 then [Op.unsubscribe 0] else []) 5 = none ∧
    ¬ ∃ trace,
      (subscribeAll 0 (Event.fresh Nat) [(7, "a"), (8, "b"), (9, "c")]).trigger 0
          (fun c (_ : Nat) => if c = 7 then [Op.unsubscribe 0] else []) 5
        = some (subscribeAll 0 (Event.fresh Nat) [(7, "a"), (8, "b"), (9, "c")], trace) ∧
      trace.map (fun inv => (inv.1.callback, inv.2)) = [(7, 5), (8, 5), (9, 5)] := by
  have h : (subscribeAll 0 (Event.fresh Nat) [(7, "a"), (8, "b"), (9, "c")]).trigger 0
      (fun c (_ : Nat) => if c = 7 then [Op.unsubscribe 0] else []) 5 = none := by decide
  refine ⟨by decide, h, ?_⟩
  rintro ⟨trace, ht, _⟩
  rw [h] at ht
  exact Option.noConfusion ht

/-- C1, amended. When no callback changes the callback list while it runs, `trigger(v)` on a
channel to which the callbacks `cs` were subscribed one after the other invokes every
registered entry exactly once, in list order, each with the value `v`, and the callbacks
invoked are the ones the channel held before, followed by `cs` in subscription order. -/
theorem trigger_invokes_each_once_in_order {F Args : Type} (self : Nat)
    (call : F → Args → List (Op F)) (ev : Event F) (cs : List (F × String)) (v : Args)
    (hq : ∀ e ∈ (subscribeAll self ev cs).callbacks_, ∀ r ∈ call e.callback v,
      r.modifies (subscribeAll self ev cs) = false) :
    ∃ trace,
      (subscribeAll self ev cs).trigger self call v = some (subscribeAll self ev cs, trace) ∧
      trace = (subscribeAll self ev cs).callbacks_.map (fun e => (e, v)) ∧
      trace.map (fun inv => (inv.1.callback, inv.2))
        = ev.callbacks_.map (fun e => (e.callback, v)) ++ cs.map (fun c => (c.1, v)) := by
  refine ⟨_, trigger_quiet self call v _ hq, rfl, ?_⟩
  obtain ⟨added, h1, h2⟩ := subscribeAll_callbacks self cs ev
  rw [h1]
  have h3 : added.map (fun e => (e.callback, v)) = cs.map (fun c => (c.1, v)) := by
    have := congrArg (List.map (fun f => (f, v))) h2
    simpa [List.map_map, Function.comp_def] using this
  simp [List.map_map, Function.comp_def, h3]

/-- C1, on a fresh channel with the callbacks `7` and `8` subscribed in this order and the payload `5`. -/
theorem trigger_invokes_each_once_in_order_witness :
    ∃ trace,
      (subscribeAll 0 (Event.fresh Nat) [(7, "a"), (8, "b")]).trigger 0 (fun _ (_ : Nat) => []) 5
        = some (subscribeAll 0 (Event.fresh Nat) [(7, "a"), (8, "b")], trace) ∧
      trace = (subscribeAll 0 (Event.fresh Nat) [(7, "a"), (8, "b")]).callbacks_.map (fun e => (e, 5)) ∧
      trace.map (fun inv => (inv.1.callback, inv.2))
        = (Event.fresh Nat).callbacks_.map (fun e => (e.callback, 5))
          ++ [(7, "a"), (8, "b")].map (fun c => (c.1, 5)) :=
  trigger_invokes_each_once_in_order 0 (fun _ (_ : Nat) => []) (Event.fresh Nat)
    [(7, "a"), (8, "b")] 5 (by intro e _ r hr; simp at hr)

/-- C3, as stated, fails: after 2147483647 rounds of subscribe and drop the counter of
the channel is `INT_MAX`; the next two calls of `subscribe` return 2147483647 and then
-2147483648, so the ids returned along this history are not strictly increasing. -/
theorem subscribe_ids_wrap_counterexample :
    runOps 0 (churn 7 "a" 2147483647) (Event.fresh Nat) = ⟨2147483647, []⟩ ∧
    issuedIds 0 [Op.subscribe 8 "b", Op.subscribe 9 "c"] (⟨2147483647, []⟩ : Event Nat)
      = [2147483647, -2147483648] ∧
    ¬ (issuedIds 0 (churn 7 "a" 2147483647 ++ [Op.subscribe 8 "b", Op.subscribe 9 "c"])
        (Event.fresh Nat)).Pairwise (fun x y => x < y) := by
  have hc : runOps 0 (churn 7 "a" 2147483647) (Event.fresh Nat) = ⟨2147483647, []⟩ := by
    have := runOps_churn 0 (7 : Nat) "a" 2147483647 (by simp [INT_MAX])
    simpa only [Nat.cast_ofNat] using this
  have hi : issuedIds 0 [Op.subscribe 8 "b", Op.subscribe 9 "c"]
      (⟨2147483647, []⟩ : Event Nat) = [2147483647, -2147483648] := by decide
  refine ⟨hc, hi, ?_⟩
  intro hp
  rw [issuedIds_append, hc, hi, List.pairwise_append] at hp
  have := hp.2.1
  simp at this

/-- C3, amended. The ids returned by `subscribe` along a history of a channel, from its
construction on, are the successive values of a 32-bit counter that starts at 0 and
wraps from `INT_MAX` to `INT_MIN`. They increase strictly as long as the history has at
most 2^31 calls of `subscribe`, and are pairwise distinct as long as it has at most 2^32,
whatever calls of `unsubscribe` lie between them. -/
theorem subscribe_ids_strictly_increasing {F : Type} (self : Nat) (ops : List (Op F)) :
    issuedIds self ops (Event.fresh F)
      = (List.range (subscribeCount ops)).map (fun (k : Nat) => wrapInt (k : Int)) ∧
    (subscribeCount ops ≤ 2147483648 →
      (issuedIds self ops (Event.fresh F)).Pairwise (fun x y => x < y)) ∧
    (subscribeCount ops ≤ 4294967296 → (issuedIds self ops (Event.fresh F)).Nodup) := by
  have heq : issuedIds self ops (Event.fresh F)
      = (List.range (subscribeCount ops)).map (fun (k : Nat) => wrapInt (k : Int)) := by
    rw [issuedIds_eq_range self ops (Event.fresh F) (by simp [Event.fresh, INT_MIN])
      (by simp [Event.fresh, INT_MAX])]
    simp [Event.fresh]
  refine ⟨heq, ?_, ?_⟩
  · intro hK
    rw [heq, List.pairwise_map]
    refine (List.pairwise_lt_range _).imp_of_mem ?_
    intro x y hx hy hxy
    have hx' := List.mem_range.mp hx
    have hy' := List.mem_range.mp hy
    rw [wrapInt_eq _ (by unfold INT_MIN; omega) (by unfold INT_MAX; omega),
      wrapInt_eq _ (by unfold INT_MIN; omega) (by unfold INT_MAX; omega)]
    omega
  · intro hK
    rw [heq]
    refine List.Nodup.map_on ?_ (List.nodup_range _)
    intro x hx y hy hxy
    have hx' := List.mem_range.mp hx
    have hy' := List.mem_range.mp hy
    unfold wrapInt at hxy
    omega

/-- C3, for a history of three subscriptions with two unsubscribes between them. -/
theorem subscribe_ids_strictly_increasing_witness :
    issuedIds 0 [Op.subscribe 7 "a", Op.unsubscribe 0, Op.subscribe 8 "b",
        Op.unsubscribe 5, Op.subscribe 9 "c"] (Event.fresh Nat) = [0, 1, 2] ∧
    (issuedIds 0 [Op.subscribe 7 "a", Op.unsubscribe 0, Op.subscribe 8 "b",
        Op.unsubscribe 5, Op.subscribe 9 "c"] (Event.fresh Nat)).Pairwise (fun x y => x < y) ∧
    (issuedIds 0 [Op.subscribe 7 "a", Op.unsubscribe 0, Op.subscribe 8 "b",
        Op.unsubscribe 5, Op.subscribe 9 "c"] (Event.fresh Nat)).Nodup :=
  ⟨by decide,
   (subscribe_ids_strictly_increasing 0 [Op.subscribe 7 "a", Op.unsubscribe 0,
      Op.subscribe 8 "b", Op.unsubscribe 5, Op.subscribe 9 "c"]).2.1 (by decide),
   (subscribe_ids_strictly_increasing 0 [Op.subscribe 7 "a", Op.unsubscribe 0,
      Op.subscribe 8 "b", Op.unsubscribe 5, Op.subscribe 9 "c"]).2.2 (by decide)⟩

/-- C4, as stated, fails: on a channel holding two callbacks of which the first destroys
its own handle while it runs, `trigger` does not invoke the two callbacks registered when
it began: the erase invalidates the running iteration and the dispatch is undefined. -/
theorem trigger_self_unsubscribe_counterexample :
    (⟨2, [⟨0, 0, "a"⟩, ⟨1, 1, "b"⟩]⟩ : Event Nat).trigger 0
        (fun c (_ : Nat) => if c = 0 then [Op.unsubscribe 0] else []) 5 = none ∧
    ¬ ∃ ev, (⟨2, [⟨0, 0, "a"⟩, ⟨1, 1, "b"⟩]⟩ : Event Nat).trigger 0
        (fun c (_ : Nat) => if c = 0 then [Op.unsubscribe 0] else []) 5
      = some (ev, [(⟨0, 0, "a"⟩, 5), (⟨1, 1, "b"⟩, 5)]) := by
  have h : (⟨2, [⟨0, 0, "a"⟩, ⟨1, 1, "b"⟩]⟩ : Event Nat).trigger 0
      (fun c (_ : Nat) => if c = 0 then [Op.unsubscribe 0] else []) 5 = none := by decide
  exact ⟨h, by rw [h]; simp⟩

/-- C4, amended. `trigger(v)` takes no snapshot: it runs over the live list. The dispatch
is defined exactly when no invoked callback changes the list while it runs (a reentrant
`unsubscribe` of an id that is not registered changes nothing); it then invokes exactly
the entries registered when it began, each once and in list order, and leaves the channel
as it was. -/
theorem trigger_defined_iff_no_reentrant_modification {F Args : Type} (self : Nat)
    (call : F → Args → List (Op F)) (ev : Event F) (v : Args) :
    ((ev.trigger self call v).isSome = true ↔
      ∀ e ∈ ev.callbacks_, ∀ r ∈ call e.callback v, r.modifies ev = false) ∧
    (∀ res, ev.trigger self call v = some res →
      res = (ev, ev.callbacks_.map (fun e => (e, v)))) := by
  have hdef : (ev.trigger self call v).isSome = true →
      ∀ e ∈ ev.callbacks_, ∀ r ∈ call e.callback v, r.modifies ev = false := by
    intro hsome
    exact triggerLoop_defined self call v ev ev.callbacks_ [] [] (by simp)
      (by simpa [Event.trigger] using hsome)
  refine ⟨⟨hdef, fun hq => by rw [trigger_quiet self call v ev hq]; rfl⟩, ?_⟩
  intro res hres
  have hq := hdef (by rw [hres]; rfl)
  rw [trigger_quiet self call v ev hq] at hres
  exact (Option.some.inj hres).symm

/-- C6. A manager registers, through any sequence `reqs` of its `subscribe` calls, callbacks
on channels of any payload types. For every channel that held no entry before, destroying
the wrappers of the manager, in whatever order the vector does it, leaves the callback list
of the channel empty, and a later trigger on it invokes no callback; so does the
destructor of the manager, which destroys them first to last. -/
theorem manager_teardown_empties_channels {F : Nat → Type} {Args : Type} (h0 : Heap F)
    (reqs : List (Request F)) (order : List SubscriptionWrapper) (a : Nat)
    (hempty : (h0 a).callbacks_ = [])
    (hperm : order.Perm (subscribeMany reqs (⟨[]⟩, h0)).1.subscriptions_)
    (call : F a → Args → List (Op (F a))) (v : Args) :
    (destroyAll order (subscribeMany reqs (⟨[]⟩, h0)).2 a).callbacks_ = [] ∧
    (destroyAll order (subscribeMany reqs (⟨[]⟩, h0)).2 a).trigger a call v
      = some (destroyAll order (subscribeMany reqs (⟨[]⟩, h0)).2 a, []) ∧
    ((subscribeMany reqs (⟨[]⟩, h0)).1.destroy (subscribeMany reqs (⟨[]⟩, h0)).2 a).callbacks_
      = [] := by
  have h0b : Balanced (⟨[]⟩ : EventsManager).subscriptions_ h0 a := by
    intro id; simp [hempty]
  have h1 := Balanced_subscribeMany reqs a (⟨[]⟩, h0) h0b
  have h2 := destroyAll_balanced a order _ (Balanced_perm _ order _ a hperm h1)
  exact ⟨h2, trigger_empty a call _ v h2, destroyAll_balanced a _ _ h1⟩

/-- C6, for `main` of `domain.cpp`: the manager holds one subscription on the temperature
channel and one on the door channel, whose payload types differ; after its destruction
the temperature channel is empty and a trigger on it invokes nothing. -/
theorem manager_teardown_empties_channels_witness :
    (subscribeMany domainRequests (⟨[]⟩, domainHeap)).1.subscriptions_
      = [⟨⟨some 0, 0⟩⟩, ⟨⟨some 1, 0⟩⟩] ∧
    ((subscribeMany domainRequests (⟨[]⟩, domainHeap)).2 0).callbacks_.length = 1 ∧
    (destroyAll [⟨⟨some 1, 0⟩⟩, ⟨⟨some 0, 0⟩⟩]
      (subscribeMany domainRequests (⟨[]⟩, domainHeap)).2 0).callbacks_ = [] ∧
    (destroyAll [⟨⟨some 1, 0⟩⟩, ⟨⟨some 0, 0⟩⟩]
        (subscribeMany domainRequests (⟨[]⟩, domainHeap)).2 0).trigger 0
        (fun _ (_ : Nat) => []) 5
      = some (destroyAll [⟨⟨some 1, 0⟩⟩, ⟨⟨some 0, 0⟩⟩]
        (subscribeMany domainRequests (⟨[]⟩, domainHeap)).2 0, []) := by
  have hsubs : (subscribeMany domainRequests (⟨[]⟩, domainHeap)).1.subscriptions_
      = [⟨⟨some 0, 0⟩⟩, ⟨⟨some 1, 0⟩⟩] := by decide
  have key := @manager_teardown_empties_channels DomainCallable Nat domainHeap domainRequests
    [⟨⟨some 1, 0⟩⟩, ⟨⟨some 0, 0⟩⟩] 0 rfl (by rw [hsubs]; exact List.Perm.swap _ _ _)
    (fun _ _ => []) 5
  exact ⟨hsubs, by decide, key.1, key.2.1⟩

/-- C7. `unsubscribe(id)` for an id that no registered entry has leaves the callback list
and the counter unchanged, so a second such call changes nothing either; and on a channel
whose ids are distinct, `unsubscribe(id)` twice is `unsubscribe(id)` once for every id. -/
theorem unsubscribe_absent_is_noop {F : Type} (ev : Event F) (id : Int) :
    ((∀ e ∈ ev.callbacks_, e.id ≠ id) →
      ev.unsubscribe id = ev ∧ (ev.unsubscribe id).unsubscribe id = ev.unsubscribe id) ∧
    (ev.WF → (ev.unsubscribe id).unsubscribe id = ev.unsubscribe id) := by
  constructor
  · intro h
    have := unsubscribe_absent ev id h
    exact ⟨this, by rw [this, this]⟩
  · intro hwf
    apply unsubscribe_absent
    intro e he
    rw [unsubscribe_callbacks_filter ev id hwf] at he
    simpa using (List.mem_filter.mp he).2

/-- C7, on a channel holding the ids 0 and 2 with counter 3: `unsubscribe(1)` changes
nothing, and `unsubscribe(2)` twice is `unsubscribe(2)` once. -/
theorem unsubscribe_absent_is_noop_witness :
    ((⟨3, [⟨0, 7, "a"⟩, ⟨2, 8, "b"⟩]⟩ : Event Nat).unsubscribe 1
        = ⟨3, [⟨0, 7, "a"⟩, ⟨2, 8, "b"⟩]⟩ ∧
      ((⟨3, [⟨0, 7, "a"⟩, ⟨2, 8, "b"⟩]⟩ : Event Nat).unsubscribe 1).unsubscribe 1
        = (⟨3, [⟨0, 7, "a"⟩, ⟨2, 8, "b"⟩]⟩ : Event Nat).unsubscribe 1) ∧
    ((⟨3, [⟨0, 7, "a"⟩, ⟨2, 8, "b"⟩]⟩ : Event Nat).unsubscribe 2).unsubscribe 2
      = (⟨3, [⟨0, 7, "a"⟩, ⟨2, 8, "b"⟩]⟩ : Event Nat).unsubscribe 2 :=
  ⟨(unsubscribe_absent_is_noop (⟨3, [⟨0, 7, "a"⟩, ⟨2, 8, "b"⟩]⟩ : Event Nat) 1).1 (by decide),
   (unsubscribe_absent_is_noop (⟨3, [⟨0, 7, "a"⟩, ⟨2, 8, "b"⟩]⟩ : Event Nat) 2).2
     (by simp [Event.WF])⟩

/-- C8, as stated, fails: on a channel whose counter is `INT_MAX` (the channel after
2147483647 rounds of subscribe and drop) `EventsManager::subscribe` does not advance the
counter by one: the counter becomes -2147483648. -/
theorem manager_subscribe_at_int_max_counterexample :
    ((EventsManager.subscribe ⟨[]⟩ (fun _ => (⟨2147483647, []⟩ : Event Nat)) 0 7 "a").2
        0).nextId_ = -2147483648 ∧
    ((EventsManager.subscribe ⟨[]⟩ (fun _ => (⟨2147483647, []⟩ : Event Nat)) 0 7 "a").2
        0).nextId_ ≠ 2147483647 + 1 ∧
    runOps 0 (churn 8 "b" 2147483647) (Event.fresh Nat) = ⟨2147483647, []⟩ := by
  refine ⟨by decide, by decide, ?_⟩
  have := runOps_churn 0 (8 : Nat) "b" 2147483647 (by simp [INT_MAX])
  simpa only [Nat.cast_ofNat] using this

/-- C8, amended. `EventsManager::subscribe(channel, callback, label)` changes the channel
as a direct `channel.subscribe(callback, label)` does: one entry with the next id is
appended and the counter is incremented as an `int`, by one while it is below `INT_MAX`.
It changes no other channel, and appends to `subscriptions_` one wrapper holding the
Active handle for that channel and id; the wrappers held before stay in place,
unchanged. -/
theorem manager_subscribe_forwards_and_appends {F : Nat → Type} (em : EventsManager)
    (h : Heap F) (event : Nat) (cb : F event) (info : String) :
    (em.subscribe h event cb info).2 event = ((h event).subscribe event cb info).1 ∧
    ((em.subscribe h event cb info).2 event).callbacks_
      = (h event).callbacks_ ++ [⟨(h event).nextId_, cb, info⟩] ∧
    ((em.subscribe h event cb info).2 event).nextId_ = wrapInt ((h event).nextId_ + 1) ∧
    (INT_MIN ≤ (h event).nextId_ → (h event).nextId_ < INT_MAX →
      ((em.subscribe h event cb info).2 event).nextId_ = (h event).nextId_ + 1) ∧
    (∀ b, b ≠ event → (em.subscribe h event cb info).2 b = h b) ∧
    (em.subscribe h event cb info).1.subscriptions_
      = em.subscriptions_ ++ [⟨((h event).subscribe event cb info).2⟩] ∧
    ((h event).subscribe event cb info).2 = ⟨some event, (h event).nextId_⟩ ∧
    ((h event).subscribe event cb info).2.Active = true := by
  rw [manager_subscribe_eq]
  refine ⟨by simp, by simp [Event.subscribe], by simp [Event.subscribe], ?_, ?_, rfl, rfl, rfl⟩
  · intro hr hm
    simp only [Function.update_same]
    exact subscribe_nextId event (h event) cb info hr hm
  · intro b hb
    simp [Function.update_noteq hb]

/-- C8, for a manager holding one wrapper and a channel with counter 1. -/
theorem manager_subscribe_forwards_and_appends_witness :
    ((EventsManager.subscribe ⟨[⟨⟨some 0, 0⟩⟩]⟩
        (fun _ => (⟨1, [⟨0, 7, "a"⟩]⟩ : Event Nat)) 0 8 "b").2 0).nextId_ = 1 + 1 ∧
    (EventsManager.subscribe ⟨[⟨⟨some 0, 0⟩⟩]⟩
        (fun _ => (⟨1, [⟨0, 7, "a"⟩]⟩ : Event Nat)) 0 8 "b").1.subscriptions_
      = [⟨⟨some 0, 0⟩⟩, ⟨⟨some 0, 1⟩⟩] := by
  have key := @manager_subscribe_forwards_and_appends (fun _ => Nat) ⟨[⟨⟨some 0, 0⟩⟩]⟩
    (fun _ => (⟨1, [⟨0, 7, "a"⟩]⟩ : Event Nat)) 0 8 "b"
  exact ⟨key.2.2.2.1 (by decide) (by decide), by rw [key.2.2.2.2.2.1]; rfl⟩

/-- C9, evaluated. After two subscriptions on one channel and the move assignment of the
second handle to the first, the entry with id 0 is still registered and no Active handle
holds it; it stays registered after both handles are destroyed, and a trigger still
invokes it. -/
theorem move_assignment_orphans_entry :
    ((runSteps orphaningProgram (World.init _)).events 0).callbacks_
      = [⟨0, 7, "a"⟩, ⟨1, 8, "b"⟩] ∧
    (runSteps orphaningProgram (World.init _)).handles = [⟨some 0, 1⟩, ⟨none, 1⟩] ∧
    (runSteps orphaningProgram (World.init _)).holders 0 0 = 0 ∧
    (runSteps orphaningProgram (World.init _)).holders 0 1 = 1 ∧
    (runSteps (orphaningProgram ++ [.destroy 0, .destroy 0]) (World.init _)).handles = [] ∧
    ((runSteps (orphaningProgram ++ [.destroy 0, .destroy 0]) (World.init _)).events 0).callbacks_
      = [⟨0, 7, "a"⟩] ∧
    ((runSteps (orphaningProgram ++ [.destroy 0, .destroy 0]) (World.init _)).events 0).trigger 0
        (fun _ (_ : Nat) => []) 5
      = some (⟨2, [⟨0, 7, "a"⟩]⟩, [(⟨0, 7, "a"⟩, 5)]) := by
  refine ⟨by decide, by decide, by decide, by decide, by decide, by decide, by decide⟩

/-- C10. Subscribing the same callback with the label `n1` or with the label `n2` returns
the same handle (same id), gives the same counter and the same sequence of (id, callback)
pairs, and every later run of subscribe, unsubscribe and trigger calls has the same
outcome in both cases: defined in both or in neither, with the same invocations (id,
callback, value) and the same counter and (id, callback) sequence. -/
theorem label_has_no_behavioural_effect {F Args : Type} (self : Nat)
    (call : F → Args → List (Op F)) (ev : Event F) (callback : F) (n1 n2 : String)
    (later : List (Action F Args)) :
    (ev.subscribe self callback n1).2 = (ev.subscribe self callback n2).2 ∧
    (ev.subscribe self callback n1).1.nextId_ = (ev.subscribe self callback n2).1.nextId_ ∧
    (ev.subscribe self callback n1).1.callbacks_.map (fun e => (e.id, e.callback))
      = (ev.subscribe self callback n2).1.callbacks_.map (fun e => (e.id, e.callback)) ∧
    unlabelledOutcome (runActions self call later (ev.subscribe self callback n1).1 [])
      = unlabelledOutcome (runActions self call later (ev.subscribe self callback n2).1 []) := by
  have hu : (ev.subscribe self callback n1).1.unlabelled
      = (ev.subscribe self callback n2).1.unlabelled := by
    simp [Event.subscribe, Event.unlabelled]
  refine ⟨rfl, rfl, ?_, runActions_unlabelled self call later _ _ [] [] hu rfl⟩
  simp only [Event.unlabelled, Prod.mk.injEq] at hu
  exact hu.2

/-- C11. On a temperature channel with one `ClimateController` subscribed, publishing the
value `t` leaves the channel as it was and fires the cooling action once when `t > 25.0`
and not otherwise, the heating action once when `t < 18.0` and not otherwise, and never
both. In `main`, `22.5` fires neither and `27.3` fires cooling once. -/
theorem climate_controller_actions (temperatureEvent : Event ClimateLambda)
    (entry : CallbackEntry ClimateLambda) (hsub : temperatureEvent.callbacks_ = [entry])
    (t : Double) :
    (∃ out, TemperatureSensor.update temperatureEvent t = some (temperatureEvent, out) ∧
      out.count Line.cooling = (if Double.lt Double.lit25 t then 1 else 0) ∧
      out.count Line.heating = (if Double.lt t Double.lit18 then 1 else 0) ∧
      ¬ (Line.cooling ∈ out ∧ Line.heating ∈ out)) ∧
    TemperatureSensor.update mainTemperatureEvent Double.lit22_5
      = some (mainTemperatureEvent, [Line.received Double.lit22_5]) ∧
    TemperatureSensor.update mainTemperatureEvent Double.lit27_3
      = some (mainTemperatureEvent, [Line.received Double.lit27_3, Line.cooling]) := by
  have hrun : ∀ (ev : Event ClimateLambda) (e : CallbackEntry ClimateLambda) (x : Double),
      ev.callbacks_ = [e] → TemperatureSensor.update ev x
        = some (ev, Line.received x :: ClimateController.adjustSystem x) := by
    intro ev e x he
    have hq := trigger_quiet 0 (noReentry : ClimateLambda → TemperatureEvent → _)
      (TemperatureEvent.mk x) ev (by intro _ _ r hr; simp [noReentry] at hr)
    cases hc : e.callback
    simp [TemperatureSensor.update, hq, he, ClimateLambda.run, hc]
  have hmain : mainTemperatureEvent.callbacks_ = [⟨0, ClimateLambda.adjust, "temperatureEvent"⟩] := by
    decide
  refine ⟨⟨_, hrun temperatureEvent entry t hsub, ?_, ?_, ?_⟩, ?_, ?_⟩
  · unfold ClimateController.adjustSystem
    by_cases h1 : Double.lt Double.lit25 t = true
    · simp [h1]
    · by_cases h2 : Double.lt t Double.lit18 = true <;> simp [h1, h2]
  · unfold ClimateController.adjustSystem
    by_cases h1 : Double.lt Double.lit25 t = true
    · have h2 : Double.lt t Double.lit18 = false := by
        cases t with
        | finite q =>
          simp only [Double.lt, Double.lit25, Double.lit18, decide_eq_true_eq,
            decide_eq_false_iff_not, not_lt] at h1 ⊢
          linarith
        | posInf => rfl
        | negInf => simp [Double.lt, Double.lit25] at h1
        | nan => rfl
      simp [h1, h2]
    · by_cases h2 : Double.lt t Double.lit18 = true <;> simp [h1, h2]
  · unfold ClimateController.adjustSystem
    by_cases h1 : Double.lt Double.lit25 t = true
    · simp [h1]
    · by_cases h2 : Double.lt t Double.lit18 = true <;> simp [h1, h2]
  · rw [hrun _ _ _ hmain]
    simp [ClimateController.adjustSystem, Double.lt, Double.lit25, Double.lit18, Double.lit22_5]
    norm_num
  · rw [hrun _ _ _ hmain]
    simp [ClimateController.adjustSystem, Double.lt, Double.lit25, Double.lit27_3]
    norm_num

/-- C11, in `main`: the value `27.3` fires cooling once and heating not at all. -/
theorem climate_controller_actions_witness :
    ∃ out, TemperatureSensor.update mainTemperatureEvent Double.lit27_3
        = some (mainTemperatureEvent, out) ∧
      out.count Line.cooling = 1 ∧ out.count Line.heating = 0 := by
  obtain ⟨⟨out, h1, h2, h3, _⟩, _⟩ := climate_controller_actions mainTemperatureEvent
    ⟨0, ClimateLambda.adjust, "temperatureEvent"⟩ (by decide) Double.lit27_3
  refine ⟨out, h1, ?_, ?_⟩
  · rw [h2]; simp [Double.lt, Double.lit25, Double.lit27_3]; norm_num
  · rw [h3]; simp [Double.lt, Double.lit18, Double.lit27_3]; norm_num

/-- C12. On a door channel with one `SecuritySystem` subscribed, publishing a door event
leaves the channel as it was and writes exactly one line, which names the sensor of the
event: the alert when `isOpen` is true, the status line when it is false. In `main`,
sensor 2 open gives one alert for sensor 2 and sensor 1 closed gives the status line for
sensor 1. -/
theorem security_system_one_message (doorStatusEvent : Event SecurityLambda)
    (entry : CallbackEntry SecurityLambda) (hsub : doorStatusEvent.callbacks_ = [entry])
    (sensorId : Int) (isOpen : Bool) :
    DoorMonitor.checkDoor doorStatusEvent sensorId isOpen
      = some (doorStatusEvent,
          [if isOpen then Line.alert sensorId else Line.doorOk sensorId]) ∧
    DoorMonitor.checkDoor mainDoorStatusEvent 2 true
      = some (mainDoorStatusEvent, [Line.alert 2]) ∧
    DoorMonitor.checkDoor mainDoorStatusEvent 1 false
      = some (mainDoorStatusEvent, [Line.doorOk 1]) := by
  have hrun : ∀ (ev : Event SecurityLambda) (e : CallbackEntry SecurityLambda) (i : Int)
      (b : Bool), ev.callbacks_ = [e] → DoorMonitor.checkDoor ev i b
        = some (ev, [if b then Line.alert i else Line.doorOk i]) := by
    intro ev e i b he
    have hq := trigger_quiet 1 (noReentry : SecurityLambda → DoorStatusEvent → _)
      (DoorStatusEvent.mk b i) ev (by intro _ _ r hr; simp [noReentry] at hr)
    cases hc : e.callback
    cases b <;> simp [DoorMonitor.checkDoor, hq, he, SecurityLambda.run, hc]
  have hmain : mainDoorStatusEvent.callbacks_ = [⟨0, SecurityLambda.alert, "doorStatusEvent"⟩] := by
    decide
  exact ⟨hrun _ entry _ _ hsub, by simpa using hrun _ _ 2 true hmain,
    by simpa using hrun _ _ 1 false hmain⟩

/-- C12, in `main`: the door event of sensor 2, open. -/
theorem security_system_one_message_witness :
    DoorMonitor.checkDoor mainDoorStatusEvent 2 true
      = some (mainDoorStatusEvent, [if true then Line.alert 2 else Line.doorOk 2]) :=
  (security_system_one_message mainDoorStatusEvent
    ⟨0, SecurityLambda.alert, "doorStatusEvent"⟩ (by decide) 2 true).1

/-- C13, as stated, fails: on the channel with counter `INT_MAX`, reached from a fresh
channel by 2147483647 rounds of subscribe and drop, `subscribe` returns the id 2147483647
and sets the counter to -2147483648, not to 2147483648. -/
theorem subscribe_at_int_max_counterexample :
    runOps 0 (churn 9 "c" 2147483647) (Event.fresh Nat) = ⟨2147483647, []⟩ ∧
    ((⟨2147483647, []⟩ : Event Nat).subscribe 0 7 "a").2 = ⟨some 0, 2147483647⟩ ∧
    ((⟨2147483647, []⟩ : Event Nat).subscribe 0 7 "a").1 = ⟨-2147483648, [⟨2147483647, 7, "a"⟩]⟩ ∧
    ((⟨2147483647, []⟩ : Event Nat).subscribe 0 7 "a").1.nextId_ ≠ 2147483647 + 1 := by
  refine ⟨?_, by decide, by decide, by decide⟩
  have := runOps_churn 0 (9 : Nat) "c" 2147483647 (by simp [INT_MAX])
  simpa only [Nat.cast_ofNat] using this

/-- C13, amended. `subscribe(callback, label)` on a channel with counter `n` and entry
list `L` has a result in every state: it returns the Active handle for this channel with
id `n` and leaves the list equal to `L` followed by the entry `{n, callback, label}`.
The counter is incremented as an `int`: it becomes `n + 1` while `n` is below `INT_MAX`,
and `INT_MIN` at `INT_MAX`. -/
theorem subscribe_appends_one_entry {F : Type} (self : Nat) (ev : Event F) (callback : F)
    (label : String) :
    (ev.subscribe self callback label).2 = ⟨some self, ev.nextId_⟩ ∧
    (ev.subscribe self callback label).2.Active = true ∧
    (ev.subscribe self callback label).1.nextId_ = wrapInt (ev.nextId_ + 1) ∧
    (INT_MIN ≤ ev.nextId_ → ev.nextId_ < INT_MAX →
      (ev.subscribe self callback label).1.nextId_ = ev.nextId_ + 1) ∧
    (ev.nextId_ = INT_MAX → (ev.subscribe self callback label).1.nextId_ = INT_MIN) ∧
    (ev.subscribe self callback label).1.callbacks_
      = ev.callbacks_ ++ [⟨ev.nextId_, callback, label⟩] ∧
    (ev.subscribe self callback label).1.callbacks_.take ev.callbacks_.length
      = ev.callbacks_ ∧
    (ev.subscribe self callback label).1.callbacks_.length = ev.callbacks_.length + 1 := by
  refine ⟨rfl, rfl, rfl, subscribe_nextId self ev callback label, ?_, rfl, ?_, ?_⟩
  · intro hmax
    show wrapInt (ev.nextId_ + 1) = INT_MIN
    rw [hmax]; decide
  · simp [Event.subscribe]
  · simp [Event.subscribe]

/-- C13, on a channel with counter 2 holding the ids 0 and 1. -/
theorem subscribe_appends_one_entry_witness :
    ((⟨2, [⟨0, 7, "a"⟩, ⟨1, 8, "b"⟩]⟩ : Event Nat).subscribe 0 9 "c").1.nextId_ = 2 + 1 ∧
    ((⟨2, [⟨0, 7, "a"⟩, ⟨1, 8, "b"⟩]⟩ : Event Nat).subscribe 0 9 "c").1.callbacks_
      = [⟨0, 7, "a"⟩, ⟨1, 8, "b"⟩] ++ [⟨2, 9, "c"⟩] :=
  ⟨(subscribe_appends_one_entry 0 (⟨2, [⟨0, 7, "a"⟩, ⟨1, 8, "b"⟩]⟩ : Event Nat) 9 "c").2.2.2.1
      (by decide) (by decide),
   (subscribe_appends_one_entry 0 (⟨2, [⟨0, 7, "a"⟩, ⟨1, 8, "b"⟩]⟩ : Event Nat) 9 "c").2.2.2.2.2.1⟩

/-- C14. `unsubscribe(id)` for a registered id deletes one entry with that id, the first
in the list, and nothing else: the entries before it and after it stay, in order and
unchanged, and the counter is unchanged. On a channel with distinct ids the result is the
list without the entries of that id, of which there is one. -/
theorem unsubscribe_removes_exactly_the_entry {F : Type} (ev : Event F) (id : Int)
    (hreg : ∃ e ∈ ev.callbacks_, e.id = id) :
    (∃ before entry after,
      ev.callbacks_ = before ++ entry :: after ∧ entry.id = id ∧
      (∀ e ∈ before, e.id ≠ id) ∧
      (ev.unsubscribe id).callbacks_ = before ++ after) ∧
    (ev.unsubscribe id).nextId_ = ev.nextId_ ∧
    (ev.unsubscribe id).callbacks_.length + 1 = ev.callbacks_.length ∧
    (ev.WF → (ev.unsubscribe id).callbacks_
      = ev.callbacks_.filter (fun e => e.id != id)) := by
  obtain ⟨e, he, hid⟩ := hreg
  have hp : (fun entry : CallbackEntry F => entry.id == id) e = true := by simp [hid]
  obtain ⟨entry, before, after, h1, h2, h3, h4⟩ :=
    List.exists_of_eraseP (p := fun entry : CallbackEntry F => entry.id == id) he hp
  refine ⟨⟨before, entry, after, h3, by simpa using h2, ?_, ?_⟩, unsubscribe_nextId ev id,
    ?_, fun hwf => unsubscribe_callbacks_filter ev id hwf⟩
  · intro x hx; simpa using h1 x hx
  · rw [unsubscribe_callbacks]; exact h4
  · rw [unsubscribe_callbacks, h4, h3]; simp; omega

/-- C14, on a channel holding the ids 0, 1 and 2: `unsubscribe(1)`. -/
theorem unsubscribe_removes_exactly_the_entry_witness :
    ((⟨3, [⟨0, 7, "a"⟩, ⟨1, 8, "b"⟩, ⟨2, 9, "c"⟩]⟩ : Event Nat).unsubscribe 1).nextId_ = 3 ∧
    ((⟨3, [⟨0, 7, "a"⟩, ⟨1, 8, "b"⟩, ⟨2, 9, "c"⟩]⟩ : Event Nat).unsubscribe 1).callbacks_
      = [⟨0, 7, "a"⟩, ⟨2, 9, "c"⟩] := by
  have key := unsubscribe_removes_exactly_the_entry
    (⟨3, [⟨0, 7, "a"⟩, ⟨1, 8, "b"⟩, ⟨2, 9, "c"⟩]⟩ : Event Nat) 1 ⟨⟨1, 8, "b"⟩, by simp, rfl⟩
  refine ⟨key.2.1, ?_⟩
  rw [key.2.2.2 (by simp [Event.WF])]
  decide

/-- C15. For every channel state and every two ids, `unsubscribe(a)` then `unsubscribe(b)`
gives the state of `unsubscribe(b)` then `unsubscribe(a)`; destroying two handles in
either order gives the same channels; and destroying the wrappers of a manager in any
permutation gives the channels its destructor leaves. -/
theorem teardown_is_order_independent {F : Nat → Type} (h : Heap F) (c : Nat) (a b : Int)
    (s1 s2 : Subscription) (em : EventsManager) (order : List SubscriptionWrapper)
    (hp : order.Perm em.subscriptions_) :
    ((h c).unsubscribe a).unsubscribe b = ((h c).unsubscribe b).unsubscribe a ∧
    s1.destroy (s2.destroy h) = s2.destroy (s1.destroy h) ∧
    destroyAll order h = em.destroy h := by
  exact ⟨unsubscribe_comm _ a b, destroy_comm s1 s2 h, destroyAll_perm _ _ hp h⟩

/-- C15, in `main`: destroying the wrapper of the door channel before the wrapper of the
temperature channel, the reverse of the order of the destructor. -/
theorem teardown_is_order_independent_witness :
    destroyAll [⟨⟨some 1, 0⟩⟩, ⟨⟨some 0, 0⟩⟩] mainHeap
      = EventsManager.destroy ⟨[⟨⟨some 0, 0⟩⟩, ⟨⟨some 1, 0⟩⟩]⟩ mainHeap :=
  (teardown_is_order_independent mainHeap 0 0 0 ⟨none, 0⟩ ⟨none, 0⟩
    ⟨[⟨⟨some 0, 0⟩⟩, ⟨⟨some 1, 0⟩⟩]⟩ [⟨⟨some 1, 0⟩⟩, ⟨⟨some 0, 0⟩⟩]
    (List.Perm.swap _ _ _)).2.2

/-- C17, as stated, fails: after 2147483647 rounds of subscribe and drop and two more
subscriptions, the channel holds the ids 2147483647 and -2147483648 in this order with
the counter at -2147483647: the ids do not increase along the list and the first is not
below the counter. -/
theorem reachable_ids_wrap_counterexample :
    runOps 0 (churn 7 "a" 2147483647 ++ [Op.subscribe 8 "b", Op.subscribe 9 "c"])
        (Event.fresh Nat)
      = ⟨-2147483647, [⟨2147483647, 8, "b"⟩, ⟨-2147483648, 9, "c"⟩]⟩ ∧
    ¬ ((runOps 0 (churn 7 "a" 2147483647 ++ [Op.subscribe 8 "b", Op.subscribe 9 "c"])
        (Event.fresh Nat)).callbacks_.map (fun e => e.id)).Pairwise (fun x y => x < y) ∧
    ¬ ∀ e ∈ (runOps 0 (churn 7 "a" 2147483647 ++ [Op.subscribe 8 "b", Op.subscribe 9 "c"])
        (Event.fresh Nat)).callbacks_,
      e.id < (runOps 0 (churn 7 "a" 2147483647 ++ [Op.subscribe 8 "b", Op.subscribe 9 "c"])
        (Event.fresh Nat)).nextId_ := by
  have hc : runOps 0 (churn 7 "a" 2147483647) (Event.fresh Nat) = ⟨2147483647, []⟩ := by
    have := runOps_churn 0 (7 : Nat) "a" 2147483647 (by simp [INT_MAX])
    simpa only [Nat.cast_ofNat] using this
  have hr : runOps 0 (churn 7 "a" 2147483647 ++ [Op.subscribe 8 "b", Op.subscribe 9 "c"])
      (Event.fresh Nat)
      = ⟨-2147483647, [⟨2147483647, 8, "b"⟩, ⟨-2147483648, 9, "c"⟩]⟩ := by
    rw [runOps_append, hc]; decide
  rw [hr]
  exact ⟨rfl, by decide, by decide⟩

/-- C17, amended. In every channel state reached from the fresh channel by a history
with at most `INT_MAX` calls of `subscribe` (and any number of `unsubscribe` calls), the
counter is the number of subscriptions made, the ids of the entries increase strictly
along the list and are below the counter; at most one entry has a given id; and
`unsubscribe(id)` leaves every entry of another id registered, the list after it being
the list without that id. -/
theorem reachable_ids_increase_below_counter {F : Type} (self : Nat) (ops : List (Op F))
    (hm : (subscribeCount ops : Int) ≤ INT_MAX) :
    (runOps self ops (Event.fresh F)).nextId_ = (subscribeCount ops : Int) ∧
    ((runOps self ops (Event.fresh F)).callbacks_.map (fun e => e.id)).Pairwise
      (fun x y => x < y) ∧
    (∀ e ∈ (runOps self ops (Event.fresh F)).callbacks_,
      e.id < (runOps self ops (Event.fresh F)).nextId_) ∧
    (∀ id, (runOps self ops (Event.fresh F)).callbacks_.countP (fun e => e.id == id) ≤ 1) ∧
    (∀ id, ((runOps self ops (Event.fresh F)).unsubscribe id).callbacks_
      = (runOps self ops (Event.fresh F)).callbacks_.filter (fun e => e.id != id)) := by
  obtain ⟨hwf, hn, _⟩ := runOps_bounded self ops (Event.fresh F) (WF_fresh F)
    (by simp [Event.fresh, INT_MIN]) (by simpa [Event.fresh] using hm)
  refine ⟨by simpa [Event.fresh] using hn, hwf.1, hwf.2, ?_,
    fun id => unsubscribe_callbacks_filter _ id hwf⟩
  intro id
  have hnd : ((runOps self ops (Event.fresh F)).callbacks_.map (fun e => e.id)).Nodup :=
    hwf.1.imp (fun h => ne_of_lt h)
  have hc := List.nodup_iff_count_le_one.mp hnd id
  rw [List.count_eq_countP, List.countP_map] at hc
  exact hc

/-- C17, for three subscriptions with the second handle dropped in between. -/
theorem reachable_ids_increase_below_counter_witness :
    (runOps 0 [Op.subscribe 7 "a", Op.subscribe 8 "b", Op.unsubscribe 1, Op.subscribe 9 "c"]
        (Event.fresh Nat)).nextId_ = 3 ∧
    ((runOps 0 [Op.subscribe 7 "a", Op.subscribe 8 "b", Op.unsubscribe 1, Op.subscribe 9 "c"]
        (Event.fresh Nat)).callbacks_.map (fun e => e.id)).Pairwise (fun x y => x < y) := by
  have key := reachable_ids_increase_below_counter 0
    [Op.subscribe (7 : Nat) "a", Op.subscribe 8 "b", Op.unsubscribe 1, Op.subscribe 9 "c"]
    (by decide)
  exact ⟨by rw [key.1]; rfl, key.2.1⟩

/-- C18. When no invoked callback changes the callback list, `trigger(v)` leaves the entry
list and the counter as they were, so a second trigger runs on the same channel state and
invokes the same entries in the same order as the first. -/
theorem trigger_leaves_channel_unchanged {F Args : Type} (self : Nat)
    (call : F → Args → List (Op F)) (ev : Event F) (v1 v2 : Args)
    (hq1 : ∀ e ∈ ev.callbacks_, ∀ r ∈ call e.callback v1, r.modifies ev = false)
    (hq2 : ∀ e ∈ ev.callbacks_, ∀ r ∈ call e.callback v2, r.modifies ev = false) :
    ∃ first second,
      ev.trigger self call v1 = some (ev, first) ∧
      runActions self call [Action.trigger v1, Action.trigger v2] ev []
        = some (ev, first ++ second) ∧
      first.map (fun inv => inv.1) = ev.callbacks_ ∧
      second.map (fun inv => inv.1) = first.map (fun inv => inv.1) ∧
      (∀ inv ∈ first, inv.2 = v1) ∧ (∀ inv ∈ second, inv.2 = v2) := by
  have t1 := trigger_quiet self call v1 ev hq1
  have t2 := trigger_quiet self call v2 ev hq2
  refine ⟨ev.callbacks_.map (fun e => (e, v1)), ev.callbacks_.map (fun e => (e, v2)),
    t1, ?_, ?_, ?_, ?_, ?_⟩
  · simp only [runActions, t1, t2, List.nil_append]
  · simp [List.map_map, Function.comp_def]
  · simp [List.map_map, Function.comp_def]
  · intro inv hinv; obtain ⟨e, _, rfl⟩ := List.mem_map.mp hinv; rfl
  · intro inv hinv; obtain ⟨e, _, rfl⟩ := List.mem_map.mp hinv; rfl

/-- C18, on a channel holding two entries, triggered with the payloads 5 and 6. -/
theorem trigger_leaves_channel_unchanged_witness :
    ∃ first second,
      runActions 0 (fun _ (_ : Nat) => []) [Action.trigger 5, Action.trigger 6]
          (⟨2, [⟨0, 7, "a"⟩, ⟨1, 8, "b"⟩]⟩ : Event Nat) []
        = some (⟨2, [⟨0, 7, "a"⟩, ⟨1, 8, "b"⟩]⟩, first ++ second) ∧
      first.map (fun inv => inv.1) = [⟨0, 7, "a"⟩, ⟨1, 8, "b"⟩] ∧
      second.map (fun inv => inv.1) = first.map (fun inv => inv.1) := by
  obtain ⟨first, second, _, h2, h3, h4, _⟩ := trigger_leaves_channel_unchanged 0
    (fun _ (_ : Nat) => []) (⟨2, [⟨0, 7, "a"⟩, ⟨1, 8, "b"⟩]⟩ : Event Nat) 5 6
    (by intro e _ r hr; simp at hr) (by intro e _ r hr; simp at hr)
  exact ⟨first, second, h2, h3, h4⟩

end EventDriven
